import Mathlib

/-!
# Verification of the GuardianAI crawl-and-score pipeline

Shallow embedding of the core crawl/scoring/confidence code of the
guardianai-qa-saas repository, with theorems settling the frozen claims
about it.

Modelling conventions:
* Python floats are modelled as exact rationals (`ℚ`); the one place the
  code takes a square root (the error-stability confidence factor) is
  modelled over `ℝ` with `Real.sqrt`.
* `round(x, k)` is modelled as exact round-half-to-even at the k-th
  decimal (`roundDec`), the ideal decimal semantics of Python rounding.
* Python dicts with a fixed key set are modelled as structures; a key
  that may be absent or `None` becomes an `Option` field (both are falsy
  and the code only distinguishes them where noted).
* Counts read with `.get(key, 0)` defaults are modelled as the projected
  numeric value (the absent-key case coincides with the value 0).
-/

namespace GuardianAI

/-! ## Round-half-to-even (Python `round`) -/

/-- Round to the nearest integer, ties to even (Python banker rounding). -/
def rndHE {α : Type} [LinearOrderedField α] [FloorRing α] (x : α) : ℤ :=
  if x - ⌊x⌋ < 1/2 then ⌊x⌋
  else if 1/2 < x - ⌊x⌋ then ⌊x⌋ + 1
  else if ⌊x⌋ % 2 = 0 then ⌊x⌋ else ⌊x⌋ + 1

/-- `round(x, k)` of Python: round half to even at the k-th decimal. -/
def roundDec {α : Type} [LinearOrderedField α] [FloorRing α] (k : ℕ) (x : α) : α :=
  (rndHE (x * 10 ^ k) : α) / 10 ^ k

theorem le_rndHE {α : Type} [LinearOrderedField α] [FloorRing α] {x : α} {a : ℤ}
    (h : (a : α) ≤ x) : a ≤ rndHE x := by
  have hfl : a ≤ ⌊x⌋ := Int.le_floor.mpr h
  unfold rndHE
  split
  · exact hfl
  · split
    · omega
    · split <;> omega

theorem rndHE_le {α : Type} [LinearOrderedField α] [FloorRing α] {x : α} {b : ℤ}
    (h : x ≤ (b : α)) : rndHE x ≤ b := by
  have hfu : ⌊x⌋ ≤ b := by
    have := Int.floor_le_floor h
    simpa using this
  have hsucc : ¬ (x - (⌊x⌋ : α) < 1/2) → ⌊x⌋ + 1 ≤ b := by
    intro hge
    push_neg at hge
    have h1 : (⌊x⌋ : α) + 1/2 ≤ x := by linarith
    have h2 : (⌊x⌋ : α) < b := by linarith
    exact_mod_cast Int.lt_iff_add_one_le.mp (by exact_mod_cast h2)
  unfold rndHE
  split
  · exact hfu
  · next hcond =>
    split
    · exact hsucc hcond
    · split
      · exact hfu
      · exact hsucc hcond

theorem roundDec_mem {α : Type} [LinearOrderedField α] [FloorRing α] {k : ℕ} {x : α} {a b : ℤ}
    (h1 : (a : α) ≤ x) (h2 : x ≤ (b : α)) :
    (a : α) ≤ roundDec k x ∧ roundDec k x ≤ (b : α) := by
  have hpow : (0 : α) < 10 ^ k := by positivity
  have hl : ((a * 10 ^ k : ℤ) : α) ≤ x * 10 ^ k := by
    push_cast
    exact mul_le_mul_of_nonneg_right h1 (le_of_lt hpow)
  have hr : x * 10 ^ k ≤ ((b * 10 ^ k : ℤ) : α) := by
    push_cast
    exact mul_le_mul_of_nonneg_right h2 (le_of_lt hpow)
  have hL := le_rndHE hl
  have hR := rndHE_le hr
  constructor
  · rw [roundDec, le_div_iff₀ hpow]
    calc (a : α) * 10 ^ k = ((a * 10 ^ k : ℤ) : α) := by push_cast; ring
    _ ≤ (rndHE (x * 10 ^ k) : α) := by exact_mod_cast hL
  · rw [roundDec, div_le_iff₀ hpow]
    calc (rndHE (x * 10 ^ k) : α) ≤ ((b * 10 ^ k : ℤ) : α) := by exact_mod_cast hR
    _ = (b : α) * 10 ^ k := by push_cast; ring

/-! ## Data model: page records

`Page` collects exactly the dict keys read by `compute_functional_score`
(src/engines/scoring_engine.py) and by the confidence engine
(src/confidence_engine.py) on the per-page record built in
src/crawler.py (`page_object`). -/

/-- One entry of a broken-link / failed-asset list (src/crawler.py). -/
structure BrokenLink where
  url : String := ""
  status : Option Int := none
  error : Option String := none
deriving DecidableEq

/-- The `checks` sub-dict of captured accessibility data
(src/engines/accessibility_engine.py); only the keys the confidence
engine reads are kept. -/
structure A11yChecks where
  missing_alt : Int := 0
  unlabeled_inputs : Int := 0
deriving DecidableEq

/-- Captured accessibility data, restricted to the keys read by
src/confidence_engine.py. -/
structure A11yData where
  checks : Option A11yChecks := none
  has_lang_attr : Option Bool := none
  total_issues : Option Int := none
deriving DecidableEq

/-- One security finding (src/engines/security_engine.py). -/
structure SecFinding where
  category : Option String := none
  severity : Option String := none
deriving DecidableEq

/-- Captured security data, restricted to the keys read by
src/confidence_engine.py; `severity_counts_critical` is the `"critical"`
entry of the `severity_counts` dict (an absent dict reads as 0). -/
structure SecData where
  findings : List SecFinding := []
  severity_counts_critical : Nat := 0
deriving DecidableEq

/-- Captured performance metrics, restricted to the `lcp_ms` key read by
src/confidence_engine.py. -/
structure PerfMetrics where
  lcp_ms : Option ℚ := none
deriving DecidableEq

/-- A per-page record (the `page_object` dict of src/crawler.py), with
exactly the fields the verified functions read. -/
structure Page where
  url : String := ""
  status : Option Int := none
  connected_pages : List String := []
  performance_score : Option ℚ := none
  accessibility_score : Option ℚ := none
  security_score : Option ℚ := none
  functional_score : Option ℚ := none
  ui_form_score : Option ℚ := none
  fcp_ms : Option ℚ := none
  lcp_ms : Option ℚ := none
  ttfb_ms : Option ℚ := none
  load_time : Option ℚ := none
  accessibility_issues : Option Int := none
  is_https : Option Bool := none
  health_score : Option ℚ := none
  broken_navigation_links : List BrokenLink := []
  broken_links : List BrokenLink := []
  failed_assets : List BrokenLink := []
  third_party_failures : List BrokenLink := []
  errors : List String := []
  js_errors : List String := []
  redirect_chain_length : Option Int := none
  ui_summary_links : Nat := 0
  accessibility_data : Option A11yData := none
  security_data : Option SecData := none
  performance_metrics : Option PerfMetrics := none
deriving DecidableEq

/-! ## Scoring engine (src/engines/scoring_engine.py) -/

/-- Result of `compute_functional_score`: the returned score plus the
deduction amounts recorded in its `breakdown` dict (a deduction is 0
when the corresponding branch is not taken). -/
structure FunctionalResult where
  score : ℚ
  httpDeduction : ℚ
  brokenDeduction : ℚ
  jsDeduction : ℚ
  networkDeduction : ℚ
  redirectDeduction : ℚ
deriving DecidableEq

/-- `compute_functional_score` (src/engines/scoring_engine.py lines 25-87).
`page_data.get("status", 200)` is the `status` field with default 200;
`page_data.get("errors") or []` is the `errors` field; and so on. -/
def compute_functional_score (page_data : Page) : FunctionalResult :=
  let status : Int := page_data.status.getD 200
  let errors := page_data.errors
  let broken_links := page_data.broken_links
  let redirect_chain : Int := page_data.redirect_chain_length.getD 0
  let js_errors := page_data.js_errors
  let http_d : ℚ :=
    if status = 404 then 80
    else if status = 500 then 100
    else if status ≠ 0 ∧ 400 ≤ status then 50
    else 0
  let b_deduct : ℚ :=
    if 0 < broken_links.length then min 30 ((broken_links.length : ℚ) * 5) else 0
  let j_deduct : ℚ :=
    if 0 < js_errors.length then min 20 ((js_errors.length : ℚ) * 3) else 0
  let n_deduct : ℚ :=
    if 0 < errors.length then min 15 ((errors.length : ℚ) * 2) else 0
  let r_deduct : ℚ :=
    if 2 < redirect_chain then min 10 (((redirect_chain - 2 : Int) : ℚ) * 3) else 0
  let score : ℚ := max 0 (min 100 (100 - http_d - b_deduct - j_deduct - n_deduct - r_deduct))
  { score := roundDec 1 score
    httpDeduction := http_d
    brokenDeduction := b_deduct
    jsDeduction := j_deduct
    networkDeduction := n_deduct
    redirectDeduction := r_deduct }

/-- `_risk_category` (src/engines/scoring_engine.py lines 247-255). -/
def risk_category (score : ℚ) : String :=
  if 90 ≤ score then "Excellent"
  else if 75 ≤ score then "Good"
  else if 50 ≤ score then "Needs Attention"
  else "Critical"

/-- Keep a `(weight, value)` pair only when the component is non-null. -/
def optComp (w : ℚ) (s : Option ℚ) : List (ℚ × ℚ) :=
  match s with
  | none => []
  | some v => [(w, v)]

/-- The `(weight, score)` pairs of the non-null components, in the fixed
order performance, accessibility, security, functional, ui_form with the
`WEIGHTS` of src/engines/scoring_engine.py lines 9-15 (the `available`
dict of `compute_page_health_score`). -/
def healthComponents (performance_score accessibility_score security_score
    functional_score ui_form_score : Option ℚ) : List (ℚ × ℚ) :=
  optComp (3/10) performance_score ++ optComp (1/4) accessibility_score ++
    optComp (1/5) security_score ++ optComp (3/20) functional_score ++
    optComp (1/10) ui_form_score

/-- Result of `compute_page_health_score`. -/
structure HealthResult where
  health_score : Option ℚ
  risk_category : Option String
deriving DecidableEq

/-- `compute_page_health_score` (src/engines/scoring_engine.py lines
142-193): redistribute the weights of the missing components over the
available ones, weighted-sum, clamp to [0,100] and round to 1 decimal. -/
def compute_page_health_score (performance_score accessibility_score security_score
    functional_score ui_form_score : Option ℚ) : HealthResult :=
  let available := healthComponents performance_score accessibility_score security_score
    functional_score ui_form_score
  if available = [] then { health_score := none, risk_category := none }
  else
    let total_available_weight := (available.map Prod.fst).sum
    let weighted_sum := (available.map (fun wv => wv.2 * (wv.1 / total_available_weight))).sum
    let h := roundDec 1 (min 100 (max 0 weighted_sum))
    { health_score := some h, risk_category := some (risk_category h) }

/-- Written from the spec wording for claim C3: the weighted average of
exactly the provided components, using weights renormalised so that the
weights used sum to 1 over the provided subset. -/
def specRenormalizedAverage (available : List (ℚ × ℚ)) : ℚ :=
  (available.map (fun wv => (wv.1 / (available.map Prod.fst).sum) * wv.2)).sum

/-! ## Confidence engine (src/confidence_engine.py) -/

/-- `CHECK_WEIGHTS.get(check, 0.05)` (src/confidence_engine.py lines 44-56). -/
def CHECK_WEIGHTS (check : String) : ℚ :=
  if check = "performance_score" then 15/100
  else if check = "accessibility_score" then 15/100
  else if check = "security_score" then 15/100
  else if check = "functional_score" then 10/100
  else if check = "ui_form_score" then 5/100
  else if check = "fcp_ms" then 10/100
  else if check = "lcp_ms" then 10/100
  else if check = "ttfb_ms" then 8/100
  else if check = "load_time" then 7/100
  else if check = "accessibility_issues" then 3/100
  else if check = "is_https" then 2/100
  else 5/100

/-- `POSSIBLE_CHECKS` (src/confidence_engine.py lines 30-42). -/
def POSSIBLE_CHECKS : List String :=
  ["performance_score", "accessibility_score", "security_score", "functional_score",
   "ui_form_score", "fcp_ms", "lcp_ms", "ttfb_ms", "load_time",
   "accessibility_issues", "is_https"]

/-- Whether `page_data.get(check)` is non-null for the named check. -/
def checkPresent (p : Page) : String → Bool
  | "performance_score" => p.performance_score.isSome
  | "accessibility_score" => p.accessibility_score.isSome
  | "security_score" => p.security_score.isSome
  | "functional_score" => p.functional_score.isSome
  | "ui_form_score" => p.ui_form_score.isSome
  | "fcp_ms" => p.fcp_ms.isSome
  | "lcp_ms" => p.lcp_ms.isSome
  | "ttfb_ms" => p.ttfb_ms.isSome
  | "load_time" => p.load_time.isSome
  | "accessibility_issues" => p.accessibility_issues.isSome
  | "is_https" => p.is_https.isSome
  | _ => false

/-- `filter_check_map` (src/confidence_engine.py lines 67-74); an unknown
filter name maps to no checks (`.get(f, [])`). -/
def filter_check_map : String → List String
  | "performance" => ["performance_score", "fcp_ms", "lcp_ms", "ttfb_ms", "load_time"]
  | "accessibility" => ["accessibility_score", "accessibility_issues"]
  | "security" => ["security_score", "is_https"]
  | "functional" => ["functional_score"]
  | "ui_elements" => ["ui_form_score"]
  | "form_validation" => ["ui_form_score"]
  | _ => []

/-- The expected checks for the active filter set (src/confidence_engine.py
lines 65-83); an empty list models both an absent and an empty filter set
(both are falsy in the code). The `seen`-set loop keeps the first
occurrence of each check, which is `eraseDups`. -/
def expectedChecks (active_filters : List String) : List String :=
  if active_filters = [] then POSSIBLE_CHECKS
  else
    let ec := ((active_filters.map filter_check_map).flatten).eraseDups
    if ec = [] then POSSIBLE_CHECKS else ec

/-- The `completeness_ratio` of `compute_confidence_score`
(src/confidence_engine.py lines 61-111), the only part of its result the
run-level confidence consumes: weight-normalised completeness over the
expected checks, rounded to 4 decimals. A falsy (empty) page dict and a
zero total weight both yield 0.0. -/
def compute_confidence_score_ratio (p : Page) (active_filters : List String) : ℚ :=
  let ec := expectedChecks active_filters
  let weight_total := (ec.map CHECK_WEIGHTS).sum
  let weighted_score := (ec.map (fun c => if checkPresent p c then CHECK_WEIGHTS c else 0)).sum
  if weight_total = 0 then 0 else roundDec 4 (weighted_score / weight_total)

/-- The distinct non-empty URLs discovered across visited pages and their
`connected_pages` (src/confidence_engine.py lines 136-141); only its
cardinality is used, so the ordering of the deduplicated list is
immaterial. -/
def discovered_urls (pages : List Page) : List String :=
  (((pages.map Page.url) ++ (pages.map Page.connected_pages).flatten).eraseDups).filter
    (fun u => u ≠ "")

/-- Factor 1: crawl coverage (src/confidence_engine.py lines 134-143). -/
def crawl_coverage_ratio (pages : List Page) : ℚ :=
  let n := pages.length
  let total_discovered := max n (discovered_urls pages).length
  min 1 ((n : ℚ) / (total_discovered : ℚ))

/-- Factor 2 before the missing-score penalty (src/confidence_engine.py
lines 145-152): mean of the per-page completeness ratios. -/
def completeness_ratio_raw (pages : List Page) (active_filters : List String) : ℚ :=
  if pages = [] then 0
  else (pages.map (fun p => compute_confidence_score_ratio p active_filters)).sum
    / (pages.length : ℚ)

/-- Per-page contribution to `missing_scores` (src/confidence_engine.py
lines 200-209). -/
def missingCount (p : Page) (active_filters : List String) : ℕ :=
  if active_filters ≠ [] then
    (if "performance" ∈ active_filters ∧ p.performance_score = none then 1 else 0) +
    (if "accessibility" ∈ active_filters ∧ p.accessibility_score = none then 1 else 0) +
    (if "security" ∈ active_filters ∧ p.security_score = none then 1 else 0)
  else
    (if p.performance_score = none then 1 else 0) +
    (if p.accessibility_score = none then 1 else 0) +
    (if p.security_score = none then 1 else 0)

/-- The `missing_scores` total (src/confidence_engine.py lines 200-209). -/
def missingTotal (pages : List Page) (active_filters : List String) : ℕ :=
  (pages.map (fun p => missingCount p active_filters)).sum

/-- The `expected_scores` total (src/confidence_engine.py line 210). -/
def expectedTotal (pages : List Page) (active_filters : List String) : ℕ :=
  pages.length *
    (if active_filters = [] then 3
     else (active_filters.filter
       (fun f => (f == "performance") || (f == "accessibility") || (f == "security"))).length)

/-- `missing_ratio` (src/confidence_engine.py line 211). -/
def missing_ratio (pages : List Page) (active_filters : List String) : ℚ :=
  if expectedTotal pages active_filters = 0 then 0
  else (missingTotal pages active_filters : ℚ) / (expectedTotal pages active_filters : ℚ)

/-- Factor 2: the completeness ratio after the missing-score penalty
(src/confidence_engine.py line 212). -/
def completeness_factor (pages : List Page) (active_filters : List String) : ℚ :=
  completeness_ratio_raw pages active_filters
    * (1 - missing_ratio pages active_filters * (1/2))

/-- `p.get("broken_navigation_links") or p.get("broken_links") or []`:
the legacy `broken_links` field is consulted only when the
navigation-link bucket is empty (falsy). -/
def navBroken (p : Page) : List BrokenLink :=
  if p.broken_navigation_links ≠ [] then p.broken_navigation_links
  else p.broken_links

/-- Factor 4: link integrity (src/confidence_engine.py lines 169-184). -/
def link_integrity (pages : List Page) : ℚ :=
  let total_broken_nav := (pages.map (fun p => (navBroken p).length)).sum
  let total_nav_links := (pages.map Page.ui_summary_links).sum
  if 0 < total_nav_links then
    max 0 (1 - min 1 (((total_broken_nav : ℚ) / (total_nav_links : ℚ)) * 5))
  else if total_broken_nav = 0 then 1
  else 1/2

/-- Factor 5: JS cleanliness (src/confidence_engine.py lines 186-190). -/
def js_cleanliness (pages : List Page) : ℚ :=
  let total_js := (pages.map (fun p => p.js_errors.length)).sum
  max 0 (1 - min 1 (((total_js : ℚ) / (pages.length : ℚ)) / 4))

/-- Factor 6: redirect stability (src/confidence_engine.py lines 192-196). -/
def redirect_stability (pages : List Page) : ℚ :=
  let unstable := (pages.filter (fun p => 2 < p.redirect_chain_length.getD 0)).length
  max 0 (1 - ((unstable : ℚ) / (pages.length : ℚ)) * 2)

/-- The non-null health scores of the pages (src/confidence_engine.py
line 156). -/
def health_scores (pages : List Page) : List ℚ := pages.filterMap Page.health_score

/-- The population variance computed inline at src/confidence_engine.py
lines 157-161. -/
def popVariance (xs : List ℚ) : ℚ :=
  let mean := xs.sum / (xs.length : ℚ)
  (xs.map (fun x => (x - mean) ^ 2)).sum / (xs.length : ℚ)

/-- Factor 3: error stability (src/confidence_engine.py lines 154-167).
The square root forces this factor (alone) into `ℝ`. -/
noncomputable def error_stability (pages : List Page) : ℝ :=
  let hs := health_scores pages
  if 2 ≤ hs.length then max 0 (1 - Real.sqrt ((popVariance hs : ℚ) : ℝ) / 35)
  else if hs.length = 1 then 7/10
  else 1/2

/-- `compute_run_confidence` (src/confidence_engine.py lines 116-232):
weighted blend of the six factors, times 100, clamped to [0, 100] and
rounded to one decimal; 0.0 for an empty page list. The five rational
factors are grouped before adding the real-valued error stability, which
is sound because the model uses exact arithmetic. -/
noncomputable def compute_run_confidence (pages : List Page)
    (active_filters : List String) : ℝ :=
  if pages = [] then 0
  else
    let base : ℚ :=
      crawl_coverage_ratio pages * (3/10) +
      completeness_factor pages active_filters * (1/4) +
      link_integrity pages * (3/20) +
      js_cleanliness pages * (1/20) +
      redirect_stability pages * (1/20)
    let confidence : ℝ := ((base : ℝ) + error_stability pages * (1/5)) * 100
    roundDec 1 (max 0 (min 100 confidence))

/-- Written from the spec wording for C7: the population standard
deviation of a list of reals. -/
noncomputable def popStdDev (xs : List ℝ) : ℝ :=
  Real.sqrt ((xs.map (fun x => (x - xs.sum / (xs.length : ℝ)) ^ 2)).sum / (xs.length : ℝ))

/-! ## Failure pattern and root cause (src/confidence_engine.py) -/

/-- `(page_data.get("status") or 200)`: both a missing status and the
falsy value 0 read as 200. -/
def statusOr200 (p : Page) : Int :=
  match p.status with
  | none => 200
  | some v => if v = 0 then 200 else v

/-- `(a11y.get("total_issues") or 0)` over
`page_data.get("accessibility_data") or {}`. -/
def a11yTotalIssues (p : Page) : Int :=
  ((p.accessibility_data.getD {}).total_issues).getD 0

/-- The `"critical"` entry of `severity_counts` over
`page_data.get("security_data") or {}`. -/
def secCriticalCount (p : Page) : Nat :=
  (p.security_data.getD {}).severity_counts_critical

/-- The sorted, deduplicated flag list of `compute_failure_pattern_id`
(src/confidence_engine.py lines 278-296). The code appends the flags in
the order http_error, broken_nav, js_errors, a11y_issues, sec_critical
and then sorts; since each flag is a fixed distinct string, assembling
them directly in alphabetical order (a11y_issues < broken_nav <
http_error < js_errors < sec_critical) equals `sorted(flags)`. -/
def failureFlags (p : Page) : List String :=
  (if 5 < a11yTotalIssues p then ["a11y_issues"] else []) ++
  (if 0 < (navBroken p).length then ["broken_nav"] else []) ++
  (if 400 ≤ statusOr200 p then ["http_error"] else []) ++
  (if 2 < p.js_errors.length then ["js_errors"] else []) ++
  (if 0 < secCriticalCount p then ["sec_critical"] else [])

/-- One lowercase hex digit. -/
def hexDigit (n : ℕ) : Char :=
  if n < 10 then Char.ofNat (48 + n) else Char.ofNat (87 + n)

/-- Models `hashlib.md5(key.encode()).hexdigest()`. The library call is
external to the repository and the spec treats the algorithm as
incidental (design notes: any stable fixed-length hash of the sorted
flag string satisfies the contract), so it is modelled as a stable
128-bit polynomial digest rendered as the usual 32 lowercase hex
characters. -/
def md5HexModel (s : String) : List Char :=
  let h : ℕ := s.toList.foldl
    (fun a c => (a * 131 + c.toNat + 7) % (2 ^ 128)) 0x9e3779b97f4a7c15
  (List.range 32).map (fun i => hexDigit ((h / 16 ^ (31 - i)) % 16))

/-- `compute_failure_pattern_id` (src/confidence_engine.py lines
278-299): null when no flags apply, else the first 8 hex characters of
the digest of the `"|"`-joined sorted flags. -/
def compute_failure_pattern_id (p : Page) : Option String :=
  let flags := failureFlags p
  if flags = [] then none
  else some (String.mk ((md5HexModel (String.intercalate "|" flags)).take 8))

/-- `not a11y.get("has_lang_attr")`: only a present `True` is truthy. -/
def hasLangAttr (p : Page) : Bool :=
  (p.accessibility_data.getD {}).has_lang_attr = some true

/-- The deduplicated high/critical security finding categories
(src/confidence_engine.py line 312). `list({...})` iterates a Python set
in an unspecified order; the model deduplicates keeping first
occurrences, which agrees with the code on every ordering-insensitive
property (token count; the at-most-one-category case). A finding with a
missing category contributes a null entry, exactly as in the code. -/
def secCats (p : Page) : List (Option String) :=
  (((p.security_data.getD {}).findings.filter
      (fun f => f.severity = some "critical" ∨ f.severity = some "high")).map
    SecFinding.category).eraseDups

/-- The token list assembled by `compute_root_cause_tag`
(src/confidence_engine.py lines 302-322), in code order: accessibility
tokens, then up to two security categories, then broken_nav_links, then
slow_lcp. -/
def rootCauseTokens (p : Page) : List (Option String) :=
  let checks := (p.accessibility_data.getD {}).checks.getD {}
  (if 0 < checks.missing_alt then [some "missing_alt"] else []) ++
  (if 0 < checks.unlabeled_inputs then [some "unlabeled_inputs"] else []) ++
  (if ¬ hasLangAttr p then [some "no_lang_attr"] else []) ++
  (secCats p).take 2 ++
  (if navBroken p ≠ [] then [some "broken_nav_links"] else []) ++
  (if 4000 < ((p.performance_metrics.getD {}).lcp_ms).getD 0 then [some "slow_lcp"] else [])

/-- `compute_root_cause_tag` (src/confidence_engine.py lines 302-325):
null when no tokens apply, else `"+".join(tags[:5])`. A null category
among the first five tokens makes `join` raise TypeError, which the
surrounding `except` turns into null. -/
def compute_root_cause_tag (p : Page) : Option String :=
  let tags := rootCauseTokens p
  if tags = [] then none
  else if (tags.take 5).all Option.isSome then
    some (String.intercalate "+" ((tags.take 5).filterMap id))
  else none

/-! ## Form analyzer (src/engines/form_analyzer.py) -/

/-- One form field dict, with the keys read by `analyze_form` plus the
keys the DOM capture produces (src/crawler.py lines 214-217). -/
structure FormField where
  type : Option String := none
  name : Option String := none
  tag : Option String := none
  required : Bool := false
  has_label : Bool := false
deriving DecidableEq

/-- A raw form dict. The DOM capture of src/crawler.py (lines 212-218)
produces the keys id/action/method/inputs; `analyze_form` reads the key
`fields`, which that capture never writes. Both keys are modelled so the
mismatch is expressible. -/
structure FormRaw where
  id : Option String := none
  action : Option String := none
  method : Option String := none
  fields : Option (List FormField) := none
  inputs : Option (List FormField) := none
deriving DecidableEq

/-- One issue dict appended by `analyze_form` (the `type` key is named
`itype` here because the issue and field dicts are distinct shapes). -/
structure FormIssue where
  itype : String
  severity : String
  field : Option String := none
  detail : String := ""
deriving DecidableEq

/-- The result of `analyze_form`: the input dict spread together with
the three added keys. -/
structure FormAnalyzed where
  raw : FormRaw
  form_health_score : Option ℚ
  form_issue_count : Nat
  form_issues : List FormIssue
deriving DecidableEq

/-- Python `sub in s` on strings. -/
def strContainsSub (s sub : String) : Bool :=
  (List.range (s.toList.length + 1)).any (fun i => sub.toList.isPrefixOf (s.toList.drop i))

/-- The issues contributed by one field in the loop of `analyze_form`
(src/engines/form_analyzer.py lines 42-90). -/
def fieldIssues (field : FormField) : List FormIssue :=
  let ftype := (field.type).getD ""
  let fname := (field.name).getD ""
  let ftag := match field.tag with
    | none => "input"
    | some t => if t = "" then "input" else t
  if ftype = "hidden" ∨ ftype = "submit" ∨ ftype = "button" ∨ ftype = "reset" then []
  else
    let nl := fname.toLower
    (if (["email", "e-mail", "mail"].any (fun kw => strContainsSub nl kw)) ∧ ftype ≠ "email" then
      [{ itype := "wrong_input_type", severity := "medium", field := some fname,
         detail := "Field '" ++ fname ++ "' appears to be email but uses type='" ++ ftype ++ "'" }]
     else []) ++
    (if (["phone", "tel", "mobile"].any (fun kw => strContainsSub nl kw))
        ∧ ftype ≠ "tel" ∧ ftype ≠ "text" then
      [{ itype := "wrong_input_type", severity := "low", field := some fname,
         detail := "Field '" ++ fname ++ "' appears to be phone but uses type='" ++ ftype ++ "'" }]
     else []) ++
    (if (["age", "quantity", "qty", "count", "number", "amount"].any
          (fun kw => strContainsSub nl kw)) ∧ ftype ≠ "number" ∧ ftype ≠ "text" then
      [{ itype := "wrong_input_type", severity := "low", field := some fname,
         detail := "Field '" ++ fname ++ "' should use type='number'" }]
     else []) ++
    (if fname = "" ∧ ftag ≠ "button" ∧ ftag ≠ "select" then
      [{ itype := "missing_name", severity := "medium", field := some "(unnamed)",
         detail := "Input field has no 'name' attribute — form submission will lose this value" }]
     else [])

/-- `analyze_form` (src/engines/form_analyzer.py lines 7-123).
`form_raw.get("fields") or []` reads the `fields` key only. -/
def analyze_form (form_raw : FormRaw) : FormAnalyzed :=
  let fields := (form_raw.fields).getD []
  let field_count := fields.length
  if field_count = 0 then
    { raw := form_raw, form_health_score := none, form_issue_count := 0, form_issues := [] }
  else
    let has_submit := fields.any (fun f =>
      f.type = some "submit" ∨ f.type = some "button" ∨ f.tag = some "button")
    let submit_issues :=
      if ¬ has_submit ∧ (form_raw.action = none ∨ form_raw.action = some "") then
        [{ itype := "missing_submit", severity := "medium",
           detail := "Form has no visible submit button" : FormIssue }]
      else []
    let per_field_issues := (fields.map fieldIssues).flatten
    let method := (match form_raw.method with
      | none => "GET"
      | some m => if m = "" then "GET" else m).toUpper
    let sensitive := fields.any (fun f =>
      ["password", "passwd", "secret", "token", "card"].any
        (fun kw => strContainsSub ((f.name).getD "").toLower kw))
    let method_issues :=
      if method = "GET" ∧ 2 < field_count ∧ sensitive then
        [{ itype := "sensitive_get_form", severity := "high",
           detail := "Form with apparent sensitive data uses GET method — data visible in URL"
           : FormIssue }]
      else []
    let issues := submit_issues ++ per_field_issues ++ method_issues
    let deduction : String → ℚ := fun sev =>
      if sev = "high" then 20 else if sev = "medium" then 10 else if sev = "low" then 4 else 5
    let score := max 0 (min 100 (100 - (issues.map (fun i => deduction i.severity)).sum))
    { raw := form_raw, form_health_score := some (roundDec 1 score),
      form_issue_count := issues.length, form_issues := issues }

/-- `analyze_all_forms` (src/engines/form_analyzer.py lines 126-128). -/
def analyze_all_forms (forms_raw : List FormRaw) : List FormAnalyzed :=
  forms_raw.map analyze_form

/-- The shape of a form record emitted by `capture_dom_elements`
(src/crawler.py lines 212-218): keys id, action, method and `inputs` —
never `fields`. -/
def crawlerForm (idv actionv methodv : Option String) (inputs : List FormField) : FormRaw :=
  { id := idv, action := actionv, method := methodv, inputs := some inputs, fields := none }

/-! ## Crawl loop model (src/crawler.py, `crawl_site`)

The `while queue:` loop is modelled as a step function over the per-job
state. Navigating and inspecting one URL is abstracted as an oracle
`fetch : String → FetchOutcome α`: the code either fails the page (all
navigation fallbacks exhausted at lines 344-347, or an exception during
processing at lines 552-554 — both reach `anomaly_det.record_failure`
and `continue`) or succeeds, producing the page's internal links and a
page record whose `url` field is the processed URL. The same-domain test
(`same_domain(base_url, url)`, a pure function of the two strings) is a
parameter of the model, so the theorems hold for every such predicate. -/

/-- Outcome of processing one URL. -/
inductive FetchOutcome (α : Type) where
  | failure (reason : String)
  | success (links : List String) (payload : α)

/-- Per-job configuration: `max_pages` and the anomaly threshold
(`ANOMALY_FAILURE_THRESHOLD`, src/crawler.py line 63). -/
structure CrawlConfig where
  max_pages : Option Nat := none
  threshold : Nat := 5
deriving DecidableEq

/-- Per-job mutable state: the frontier queue, visited set, results list
(each entry is the record's url plus its payload), the anomaly
detector's consecutive-failure counter and anomaly list, and the log of
warning events (each carrying the counter value at logging time). -/
structure CrawlState (α : Type) where
  queue : List String
  visited : List String
  results : List (String × α)
  consecutiveErr : Nat
  anomalies : List (String × String)
  warnings : List Nat
deriving DecidableEq

/-- `CrawlAnomalyDetector.record_failure` (src/crawler.py 254-261):
bump the consecutive counter, append the anomaly, log a warning when
the counter has reached the threshold. -/
def recordFailure {α : Type} (threshold : Nat) (s : CrawlState α)
    (url reason : String) : CrawlState α :=
  { s with consecutiveErr := s.consecutiveErr + 1,
           anomalies := s.anomalies ++ [(url, reason)],
           warnings := if threshold ≤ s.consecutiveErr + 1
             then s.warnings ++ [s.consecutiveErr + 1] else s.warnings }

/-- `CrawlAnomalyDetector.record_success` (src/crawler.py 251-252). -/
def recordSuccess {α : Type} (s : CrawlState α) : CrawlState α :=
  { s with consecutiveErr := 0 }

/-- The link-enqueue loop (src/crawler.py 419-421): append each link not
already visited and not already queued. -/
def enqueueLinks (visited queue links : List String) : List String :=
  links.foldl (fun q l => if l ∈ visited ∨ l ∈ q then q else q ++ [l]) queue

/-- `max_pages is not None and len(page_data) >= int(max_pages)`
(src/crawler.py 284). -/
def capReached {α : Type} (cfg : CrawlConfig) (s : CrawlState α) : Bool :=
  match cfg.max_pages with
  | none => false
  | some m => decide (m ≤ s.results.length)

/-- How the loop left its current iteration. -/
inductive StopReason where
  | completed
  | capped
  | aborted
deriving DecidableEq

/-- One step either continues with a new state or stops the crawl. -/
inductive StepResult (α : Type) where
  | next (s : CrawlState α)
  | stop (r : StopReason) (s : CrawlState α)

/-- The state carried by a step result. -/
def stateOf {α : Type} : StepResult α → CrawlState α
  | .next s => s
  | .stop _ s => s

/-- One iteration of the `while queue:` loop of `crawl_site`
(src/crawler.py 283-564), in code order: loop guard, page cap, anomaly
abort (`should_abort`, line 263-264: counter ≥ 2 × threshold), pop,
visited skip, same-domain skip, mark visited, process. A failure is
recorded and the loop continues; a success enqueues the
unvisited/unqueued internal links, appends the page record and resets
the failure counter. -/
def crawlStep {α : Type} (cfg : CrawlConfig) (sameDomain : String → Bool)
    (fetch : String → FetchOutcome α) (s : CrawlState α) : StepResult α :=
  match s.queue with
  | [] => .stop .completed s
  | current_url :: rest =>
    if capReached cfg s then .stop .capped s
    else if 2 * cfg.threshold ≤ s.consecutiveErr then .stop .aborted s
    else if current_url ∈ s.visited then .next { s with queue := rest }
    else if ¬ sameDomain current_url then .next { s with queue := rest }
    else
      let s₁ : CrawlState α := { s with queue := rest, visited := s.visited ++ [current_url] }
      match fetch current_url with
      | .failure reason => .next (recordFailure cfg.threshold s₁ current_url reason)
      | .success links payload =>
        .next (recordSuccess { s₁ with
          queue := enqueueLinks s₁.visited s₁.queue links,
          results := s₁.results ++ [(current_url, payload)] })

/-- The crawl loop with explicit fuel (the real loop terminates because
the visited set grows inside a finite site; an abstract oracle may keep
producing fresh links, so the model iterates a bounded number of steps).
Returns the final state and the stop reason if one was reached. -/
def crawlRun {α : Type} (cfg : CrawlConfig) (sameDomain : String → Bool)
    (fetch : String → FetchOutcome α) : Nat → CrawlState α → CrawlState α × Option StopReason
  | 0, s => (s, none)
  | fuel + 1, s =>
    match crawlStep cfg sameDomain fetch s with
    | .next s₁ => crawlRun cfg sameDomain fetch fuel s₁
    | .stop r s₁ => (s₁, some r)

/-- The fresh per-job state at entry of `crawl_site`: the queue holds
the normalised base URL; visited set and results are empty
(src/crawler.py 279-281 with 661-662). -/
def initState (α : Type) (start : String) : CrawlState α :=
  { queue := [start], visited := [], results := [], consecutiveErr := 0,
    anomalies := [], warnings := [] }

/-- The visited-once invariant: result urls are distinct and all lie in
the visited set. -/
def crawlInv {α : Type} (s : CrawlState α) : Prop :=
  (s.results.map Prod.fst).Nodup ∧ ∀ u ∈ s.results.map Prod.fst, u ∈ s.visited

/-! ## URL normalisation model (src/crawler.py `normalize_url`)

`normalize_url` is `urlunparse(urlparse(url)._replace(fragment="")).rstrip("/")`
over `urllib.parse` of CPython 3.11+. The stdlib functions are modelled
character by character on `List Char`:

* `urlsplit` removes tab/CR/LF everywhere and strips leading WHATWG C0
  control/space characters (trailing ones are deliberately preserved by
  CPython), lowercases a syntactically valid scheme, takes the netloc
  after a leading `//` up to the next `/`, `?` or `#`, then splits the
  fragment at the first `#` and the query at the first `?`. A netloc
  containing `[` or `]` is mapped to `none`: CPython raises ValueError
  on unbalanced brackets and validates balanced ones as IPv6/IPvFuture
  hosts through the `ipaddress` module, whose textual-address grammar is
  outside this model, so the model conservatively rejects every bracketed
  netloc. The non-ASCII `_checknetloc` NFKC check is likewise outside
  the model, which is exact for bracket-free netlocs without exotic
  Unicode.
* `urlparse` additionally splits params at the first `;` at or after the
  last `/` of the path, but only for schemes in `uses_params`.
* `urlunparse`/`urlunsplit` reassemble, re-inserting `//` when a netloc
  is present, or when the scheme is in `uses_netloc` and the path does
  not already start with `//`, and dropping empty params, query and
  fragment. -/

/-- WHATWG C0 control or space (codepoints up to 0x20). -/
def isC0OrSpace (c : Char) : Bool := c.toNat ≤ 0x20

/-- The bytes removed anywhere in a URL: tab, CR, LF. -/
def isUnsafeUrlByte (c : Char) : Bool := c = '\t' ∨ c = '\r' ∨ c = '\n'

/-- `url.lstrip(_WHATWG_C0_CONTROL_OR_SPACE)`. -/
def lstripC0 (l : List Char) : List Char := l.dropWhile isC0OrSpace

/-- The `url.replace(b, "")` loop over tab, CR, LF. -/
def removeUnsafe (l : List Char) : List Char := l.filter (fun c => ¬ isUnsafeUrlByte c)

/-- The input cleaning at the top of `urlsplit` (lstrip, then removal). -/
def cleanUrl (l : List Char) : List Char := removeUnsafe (lstripC0 l)

/-- `scheme_chars`: ASCII letters, digits and `+`, `-`, `.`. -/
def isSchemeChar (c : Char) : Bool := c.isAlpha ∨ c.isDigit ∨ c = '+' ∨ c = '-' ∨ c = '.'

/-- Split a list at the first occurrence of `c` (the two Python idioms
`url.find(c)` plus slicing, and `url.split(c, 1)`). -/
def splitFirst (c : Char) : List Char → Option (List Char × List Char)
  | [] => none
  | x :: xs =>
    if x = c then some ([], xs)
    else
      match splitFirst c xs with
      | none => none
      | some ab => some (x :: ab.1, ab.2)

/-- The scheme detection of `urlsplit`: a `:` at position i > 0 with an
ASCII letter first and scheme characters before it yields the lowercased
scheme and the rest. -/
def schemeSplit (l : List Char) : Option (List Char × List Char) :=
  match splitFirst ':' l with
  | none => none
  | some (pre, post) =>
    match pre with
    | [] => none
    | c :: cs =>
      if c.isAlpha ∧ cs.all isSchemeChar then some ((c :: cs).map Char.toLower, post)
      else none

/-- A netloc delimiter (`_splitnetloc` scans for `/`, `?`, `#`). -/
def isNetlocEnd (c : Char) : Bool := c = '/' ∨ c = '?' ∨ c = '#'

/-- `urllib.parse.uses_netloc` (CPython 3.11.6). -/
def USES_NETLOC : List (List Char) :=
  ["", "ftp", "http", "gopher", "nntp", "telnet", "imap", "wais", "file",
   "mms", "https", "shttp", "snews", "prospero", "rtsp", "rtsps", "rtspu",
   "rsync", "svn", "svn+ssh", "sftp", "nfs", "git", "git+ssh", "ws",
   "wss"].map String.toList

/-- `urllib.parse.uses_params` (CPython 3.11.6). -/
def USES_PARAMS : List (List Char) :=
  ["", "ftp", "hdl", "prospero", "http", "imap", "https", "shttp", "rtsp",
   "rtsps", "rtspu", "sip", "sips", "mms", "sftp", "tel"].map String.toList

/-- The result of `urlsplit`. -/
structure SplitResult where
  scheme : List Char
  netloc : List Char
  path : List Char
  query : List Char
  fragment : List Char
deriving DecidableEq

/-- `urlsplit(url)` (CPython 3.11.6), with the bracketed-netloc
ValueError paths (unbalanced brackets, and `_check_bracketed_host` on
balanced ones) conservatively modelled as `none` for every netloc that
contains a bracket. -/
def urlsplitModel (url0 : List Char) : Option SplitResult :=
  let url1 := cleanUrl url0
  let sr := match schemeSplit url1 with
    | none => (([] : List Char), url1)
    | some (sch, rest) => (sch, rest)
  let nr := if sr.2.take 2 = ['/', '/'] then
      ((sr.2.drop 2).takeWhile (fun c => ¬ isNetlocEnd c),
        (sr.2.drop 2).dropWhile (fun c => ¬ isNetlocEnd c))
    else (([] : List Char), sr.2)
  if '[' ∈ nr.1 ∨ ']' ∈ nr.1 then none
  else
    let fr := match splitFirst '#' nr.2 with
      | none => (nr.2, ([] : List Char))
      | some ab => ab
    let qr := match splitFirst '?' fr.1 with
      | none => (fr.1, ([] : List Char))
      | some ab => ab
    some { scheme := sr.1, netloc := nr.1, path := qr.1, query := qr.2, fragment := fr.2 }

/-- The part of a list after its last `/` (the whole list when it has
no `/`). -/
def afterLastSlash (l : List Char) : List Char :=
  (l.reverse.takeWhile (fun c => c ≠ '/')).reverse

/-- The part of a list up to and including its last `/`. -/
def uptoLastSlash (l : List Char) : List Char :=
  (l.reverse.dropWhile (fun c => c ≠ '/')).reverse

/-- `_splitparams` guarded by the `';' in url` test of `urlparse`:
split at the first `;` at or after the last `/`. -/
def paramsSplit (path : List Char) : List Char × List Char :=
  if '/' ∈ path then
    match splitFirst ';' (afterLastSlash path) with
    | none => (path, [])
    | some ab => (uptoLastSlash path ++ ab.1, ab.2)
  else
    match splitFirst ';' path with
    | none => (path, [])
    | some ab => ab

/-- The result of `urlparse`. -/
structure ParseResult where
  scheme : List Char
  netloc : List Char
  path : List Char
  params : List Char
  query : List Char
  fragment : List Char
deriving DecidableEq

/-- `urlparse(url)`: params are split only for schemes in `uses_params`
(when the scheme is not in the list, or `;` does not occur in the path,
the path is kept whole and params are empty, exactly as in CPython). -/
def urlparseModel (url : List Char) : Option ParseResult :=
  match urlsplitModel url with
  | none => none
  | some r =>
    let pp := if r.scheme ∈ USES_PARAMS then paramsSplit r.path else (r.path, [])
    some { scheme := r.scheme, netloc := r.netloc, path := pp.1, params := pp.2,
           query := r.query, fragment := r.fragment }

/-- `urlunsplit(components)` (CPython 3.11.6): the `//` is re-inserted
when the netloc is non-empty, or when the scheme is in `uses_netloc` and
the url part does not already start with `//`. -/
def urlunsplitModel (scheme netloc url query fragment : List Char) : List Char :=
  let url1 :=
    if netloc ≠ [] ∨ (scheme ≠ [] ∧ scheme ∈ USES_NETLOC ∧ url.take 2 ≠ ['/', '/']) then
      '/' :: '/' :: (netloc ++ (if url ≠ [] ∧ url.take 1 ≠ ['/'] then '/' :: url else url))
    else url
  let url2 := if scheme ≠ [] then scheme ++ ':' :: url1 else url1
  let url3 := if query ≠ [] then url2 ++ '?' :: query else url2
  if fragment ≠ [] then url3 ++ '#' :: fragment else url3

/-- `urlunparse(components)`. -/
def urlunparseModel (p : ParseResult) : List Char :=
  urlunsplitModel p.scheme p.netloc
    (if p.params ≠ [] then p.path ++ ';' :: p.params else p.path) p.query p.fragment

/-- `.rstrip("/")`. -/
def rstripSlash (l : List Char) : List Char :=
  (l.reverse.dropWhile (fun c => c = '/')).reverse

/-- `normalize_url` (src/crawler.py lines 68-71) on character lists;
`none` models the ValueError escape of `urlparse`. -/
def normalize_url_model (url : List Char) : Option (List Char) :=
  match urlparseModel url with
  | none => none
  | some r => some (rstripSlash (urlunparseModel { r with fragment := [] }))

/-- `normalize_url` on strings. -/
def normalize_url (u : String) : Option String :=
  (normalize_url_model u.toList).map (fun l => String.mk l)

/-- A character allowed in the host part of a well-formed absolute URL:
anything except the netloc delimiters `/`, `?`, `#`, the IPv6 brackets
and the stripped bytes tab/CR/LF. -/
def goodHostChar (c : Char) : Bool :=
  ¬ (c = '/' ∨ c = '?' ∨ c = '#' ∨ c = '[' ∨ c = ']' ∨ isUnsafeUrlByte c)

/-- A character allowed in the path part of a well-formed absolute URL:
anything except the params/query/fragment delimiters `;`, `?`, `#` and
the stripped bytes tab/CR/LF (`/` is allowed). -/
def goodPathChar (c : Char) : Bool :=
  ¬ (c = ';' ∨ c = '?' ∨ c = '#' ∨ isUnsafeUrlByte c)

/-- The well-formed absolute URL `scheme://host`+`path` as a character
list. -/
def absUrl (sch host path : List Char) : List Char :=
  sch ++ ':' :: '/' :: '/' :: (host ++ path)

/-! ## Concrete example pages used by the claim theorems -/

/-- A page with three broken navigation links and every other input at
its no-deduction value (used for C1). -/
def pageThreeBroken : Page :=
  { status := some 200
    broken_links := [{ url := "https://ex.org/a", status := some 404 },
                     { url := "https://ex.org/b", status := some 404 },
                     { url := "https://ex.org/c", status := some 500 }] }


/-- The same page with zero broken navigation links. -/
def pageZeroBroken : Page := { pageThreeBroken with broken_links := [] }


/-- A page whose `errors` list (failed network requests) is non-empty
(used for C2). -/
def pageWithNetErrors : Page := { status := some 200, errors := ["net::ERR_FAILED"] }


/-- The same page with an empty `errors` list. -/
def pageNoNetErrors : Page := { pageWithNetErrors with errors := [] }

/-- The C8 scenario page: `checks.missing_alt = 2`, no other
accessibility findings, `has_lang_attr = True`, and exactly one critical
security finding of category "csp" (so `severity_counts["critical"] = 1`
as built by capture_security_data). -/
def pageC8 : Page :=
  { status := some 200
    accessibility_data := some
      { checks := some { missing_alt := 2, unlabeled_inputs := 0 }
        has_lang_attr := some true
        total_issues := some 2 }
    security_data := some
      { findings := [{ category := some "csp", severity := some "critical" }]
        severity_counts_critical := 1 } }

/-- A page on which no root-cause token applies. -/
def pageNoTokens : Page :=
  { status := some 200
    accessibility_data := some { has_lang_attr := some true } }

/-- A crawler-shaped form record: its field list sits under `inputs`
(with an email field that would be flagged were it analysed), and it has
no `fields` key. -/
def crawlerFormSample : FormRaw :=
  crawlerForm none (some "/submit") (some "post") [{ type := some "text", name := some "email" }]

/-- A concrete crawl configuration (default threshold 5, no cap). -/
def witCfg : CrawlConfig := { threshold := 5 }

/-- A concrete crawl state whose head-of-queue URL is already visited. -/
def witState : CrawlState Unit :=
  { queue := ["https://ex.org/a", "https://ex.org/b"], visited := ["https://ex.org/a"],
    results := [], consecutiveErr := 0, anomalies := [], warnings := [] }

/-- A page with a non-null health score of 90 (used for C4/C7). -/
def pageHealthA : Page := { url := "https://ex.org", health_score := some 90 }

/-- A page with a non-null health score of 80 (used for C7). -/
def pageHealthB : Page := { url := "https://ex.org/b", health_score := some 80 }

/-! ## Theorems for the claims -/



/-- C1, counterexample: the code deducts 5 points per broken link (capped
at 30), so three broken links lower the score by 15, not by the claimed
min(35, 3×7) = 21 points. -/
theorem claim_C1_counterexample :
    (compute_functional_score pageZeroBroken).score
        - (compute_functional_score pageThreeBroken).score = 15 ∧
      (compute_functional_score pageZeroBroken).score
        - (compute_functional_score pageThreeBroken).score ≠ 21 := by
  have h : (compute_functional_score pageZeroBroken).score
      - (compute_functional_score pageThreeBroken).score = 15 := by
    norm_num [compute_functional_score, pageZeroBroken, pageThreeBroken, roundDec, rndHE]
  exact ⟨h, by rw [h]; norm_num⟩

/-- C1 (amended): each broken navigation link deducts 5 points from the
functional score, the total broken-link deduction is capped at 30
points, and a page with 3 broken navigation links (all other inputs held
at their no-deduction values) scores exactly 15 points lower than the
same page with 0 broken navigation links. -/
theorem claim_C1 (p : Page) :
    (compute_functional_score p).brokenDeduction
        = min 30 ((p.broken_links.length : ℚ) * 5) ∧
      (p.status = some 200 → p.errors = [] → p.js_errors = [] →
        p.redirect_chain_length.getD 0 ≤ 2 → p.broken_links.length = 3 →
        (compute_functional_score { p with broken_links := [] }).score
          - (compute_functional_score p).score = 15) := by
  constructor
  · by_cases h : 0 < p.broken_links.length
    · simp [compute_functional_score, h]
    · have h0 : p.broken_links.length = 0 := by omega
      simp [compute_functional_score, h, h0]
  · intro h1 h2 h3 h4 h5
    have h4' : ¬ (2 < p.redirect_chain_length.getD 0) := by omega
    simp only [compute_functional_score, h1, h2, h3, h5, if_neg h4']
    norm_num [roundDec, rndHE]

/-- C1 witness: the amended statement evaluated on a concrete page. -/
theorem claim_C1_witness :
    (pageThreeBroken.status = some 200 ∧ pageThreeBroken.errors = [] ∧
        pageThreeBroken.js_errors = [] ∧ pageThreeBroken.redirect_chain_length.getD 0 ≤ 2 ∧
        pageThreeBroken.broken_links.length = 3) ∧
      (compute_functional_score { pageThreeBroken with broken_links := [] }).score
        - (compute_functional_score pageThreeBroken).score = 15 :=
  ⟨⟨rfl, rfl, rfl, by decide, rfl⟩,
    (claim_C1 pageThreeBroken).2 rfl rfl rfl (by decide) rfl⟩



/-- C2, counterexample: two pages that agree on broken links, HTTP
status, JS errors and redirect chain length but differ in the list of
failed network requests (the `errors` key) receive different functional
scores, refuting the claimed 4-field dependency. -/
theorem claim_C2_counterexample :
    pageWithNetErrors.broken_links = pageNoNetErrors.broken_links ∧
      pageWithNetErrors.status = pageNoNetErrors.status ∧
      pageWithNetErrors.js_errors = pageNoNetErrors.js_errors ∧
      pageWithNetErrors.redirect_chain_length = pageNoNetErrors.redirect_chain_length ∧
      (compute_functional_score pageWithNetErrors).score
        ≠ (compute_functional_score pageNoNetErrors).score := by
  refine ⟨rfl, rfl, rfl, rfl, ?_⟩
  norm_num [compute_functional_score, pageWithNetErrors, pageNoNetErrors, roundDec, rndHE]

/-- C2 (amended): the functional score depends only on the page's broken
navigation links (the `broken_links` field), HTTP status, JS errors,
redirect chain length, and the `errors` list of failed network requests
(2 points each, capped at 15); in particular it never depends on
`failed_assets` or `third_party_failures`. Two pages agreeing on those
five fields receive identical results. -/
theorem claim_C2 (p q : Page)
    (hb : p.broken_links = q.broken_links) (hs : p.status = q.status)
    (hj : p.js_errors = q.js_errors)
    (hr : p.redirect_chain_length = q.redirect_chain_length)
    (he : p.errors = q.errors) :
    compute_functional_score p = compute_functional_score q := by
  simp only [compute_functional_score, hb, hs, hj, hr, he]

/-- C2 witness: two concrete pages differing in `failed_assets` and
`third_party_failures` only, with equal functional results. -/
theorem claim_C2_witness :
    ({ pageNoNetErrors with failed_assets := [{ url := "https://ex.org/x.png" }] } : Page)
        ≠ pageNoNetErrors ∧
      compute_functional_score
          { pageNoNetErrors with failed_assets := [{ url := "https://ex.org/x.png" }] }
        = compute_functional_score pageNoNetErrors :=
  ⟨by decide,
    claim_C2 { pageNoNetErrors with failed_assets := [{ url := "https://ex.org/x.png" }] }
      pageNoNetErrors rfl rfl rfl rfl rfl⟩

/-- C3, counterexample: for components (100, 90, null, null, null) the
returned health score is the weighted average rounded to one decimal
(95.5), not the exact weighted average 1050/11 = 95.4545..., so the
claimed exact equality fails. -/
theorem claim_C3_counterexample :
    (compute_page_health_score (some 100) (some 90) none none none).health_score
      ≠ some (specRenormalizedAverage (healthComponents (some 100) (some 90) none none none)) := by
  have h1 : (compute_page_health_score (some 100) (some 90) none none none).health_score
      = some (191/2) := by
    norm_num [compute_page_health_score, healthComponents, optComp, roundDec, rndHE]
    split
    · next hc => exact absurd hc (by decide)
    · rfl
  have h2 : specRenormalizedAverage (healthComponents (some 100) (some 90) none none none)
      = 1050/11 := by
    norm_num [specRenormalizedAverage, healthComponents, optComp]
  rw [h1, h2]
  norm_num

theorem mem_optComp {w : ℚ} {s : Option ℚ} {x : ℚ × ℚ} (hx : x ∈ optComp w s) :
    x.1 = w := by
  cases s with
  | none => simp [optComp] at hx
  | some v =>
    simp [optComp] at hx
    rw [hx]

theorem healthComponents_weight_pos {p a s f u : Option ℚ} {x : ℚ × ℚ}
    (hx : x ∈ healthComponents p a s f u) : 0 < x.1 := by
  simp only [healthComponents, List.mem_append] at hx
  rcases hx with ((((h | h) | h) | h) | h) <;>
    rw [mem_optComp h] <;> norm_num

theorem sum_map_comm_mul (l : List (ℚ × ℚ)) (T : ℚ) :
    (l.map (fun wv => wv.2 * (wv.1 / T))).sum = (l.map (fun wv => (wv.1 / T) * wv.2)).sum := by
  induction l with
  | nil => simp
  | cons h t ih => simp [ih, mul_comm]

theorem sum_map_div_const (l : List ℚ) (T : ℚ) :
    (l.map (fun w => w / T)).sum = l.sum / T := by
  induction l with
  | nil => simp
  | cons h t ih => simp [ih, add_div]

theorem sum_map_div_self (l : List (ℚ × ℚ)) (hpos : ∀ x ∈ l, 0 < x.1) (hne : l ≠ []) :
    (l.map (fun wv => wv.1 / (l.map Prod.fst).sum)).sum = 1 := by
  have hT : 0 < (l.map Prod.fst).sum := by
    apply List.sum_pos
    · intro x hx
      rcases List.mem_map.mp hx with ⟨y, hy, rfl⟩
      exact hpos y hy
    · simpa using hne
  have hmm : l.map (fun wv => wv.1 / (l.map Prod.fst).sum)
      = (l.map Prod.fst).map (fun w => w / (l.map Prod.fst).sum) := by
    rw [List.map_map]
    rfl
  rw [hmm, sum_map_div_const, div_self (ne_of_gt hT)]

/-- C3 (amended): for every non-empty subset of supplied components, the
returned health score equals the weighted average of exactly the
supplied components under renormalised weights — clamped to [0, 100] and
rounded to one decimal — and the renormalised weights used sum to 1;
when all five components are null both the health score and the risk
category are null. -/
theorem claim_C3 (p a s f u : Option ℚ) :
    (healthComponents p a s f u ≠ [] →
      (compute_page_health_score p a s f u).health_score
          = some (roundDec 1 (min 100 (max 0 (specRenormalizedAverage (healthComponents p a s f u)))))
        ∧ ((healthComponents p a s f u).map
            (fun wv => wv.1 / ((healthComponents p a s f u).map Prod.fst).sum)).sum = 1) ∧
      (compute_page_health_score none none none none none
        = { health_score := none, risk_category := none }) := by
  constructor
  · intro hne
    refine ⟨?_, sum_map_div_self _ (fun x hx => healthComponents_weight_pos hx) hne⟩
    simp only [compute_page_health_score, if_neg hne, specRenormalizedAverage]
    rw [sum_map_comm_mul]
  · rfl

/-- C3 witness: the amended statement evaluated on a concrete non-empty
component subset. -/
theorem claim_C3_witness :
    healthComponents (some 100) (some 90) none none none ≠ [] ∧
      (compute_page_health_score (some 100) (some 90) none none none).health_score
        = some (roundDec 1 (min 100 (max 0 (specRenormalizedAverage
            (healthComponents (some 100) (some 90) none none none))))) :=
  ⟨by decide, ((claim_C3 (some 100) (some 90) none none none).1 (by decide)).1⟩

/-! ## Helper lemmas for the confidence claims -/

theorem ite_nonneg {c : Prop} [Decidable c] {a b : ℚ} (ha : 0 ≤ a) (hb : 0 ≤ b) :
    0 ≤ if c then a else b := by
  split <;> assumption

theorem CHECK_WEIGHTS_nonneg (c : String) : 0 ≤ CHECK_WEIGHTS c := by
  unfold CHECK_WEIGHTS
  refine ite_nonneg (by norm_num) (ite_nonneg (by norm_num) (ite_nonneg (by norm_num)
    (ite_nonneg (by norm_num) (ite_nonneg (by norm_num) (ite_nonneg (by norm_num)
    (ite_nonneg (by norm_num) (ite_nonneg (by norm_num) (ite_nonneg (by norm_num)
    (ite_nonneg (by norm_num) (ite_nonneg (by norm_num) (by norm_num)))))))))))

theorem sum_map_const_q {α : Type} (l : List α) (c : ℚ) :
    (l.map (fun _ => c)).sum = (l.length : ℚ) * c := by
  induction l with
  | nil => simp
  | cons h t ih =>
    simp [ih]
    ring

theorem sum_map_const_nat {α : Type} (l : List α) (c : ℕ) :
    (l.map (fun _ => c)).sum = l.length * c := by
  induction l with
  | nil => simp
  | cons h t ih =>
    simp [ih]
    ring

theorem ccs_ratio_mem (p : Page) (af : List String) :
    0 ≤ compute_confidence_score_ratio p af ∧ compute_confidence_score_ratio p af ≤ 1 := by
  unfold compute_confidence_score_ratio
  by_cases h : ((expectedChecks af).map CHECK_WEIGHTS).sum = 0
  · simp [h]
  · rw [if_neg h]
    have hwt0 : 0 ≤ ((expectedChecks af).map CHECK_WEIGHTS).sum := by
      apply List.sum_nonneg
      intro x hx
      rcases List.mem_map.mp hx with ⟨c, _, rfl⟩
      exact CHECK_WEIGHTS_nonneg c
    have hwt : 0 < ((expectedChecks af).map CHECK_WEIGHTS).sum := lt_of_le_of_ne hwt0 (Ne.symm h)
    have hws0 : 0 ≤ ((expectedChecks af).map
        (fun c => if checkPresent p c then CHECK_WEIGHTS c else 0)).sum := by
      apply List.sum_nonneg
      intro x hx
      rcases List.mem_map.mp hx with ⟨c, _, rfl⟩
      split
      · exact CHECK_WEIGHTS_nonneg c
      · exact le_refl 0
    have hwsle : ((expectedChecks af).map
        (fun c => if checkPresent p c then CHECK_WEIGHTS c else 0)).sum
        ≤ ((expectedChecks af).map CHECK_WEIGHTS).sum := by
      apply List.sum_le_sum
      intro c _
      split
      · exact le_refl _
      · exact CHECK_WEIGHTS_nonneg c
    have hq0 : (0 : ℚ) ≤ ((expectedChecks af).map
        (fun c => if checkPresent p c then CHECK_WEIGHTS c else 0)).sum
        / ((expectedChecks af).map CHECK_WEIGHTS).sum := div_nonneg hws0 (le_of_lt hwt)
    have hq1 : ((expectedChecks af).map
        (fun c => if checkPresent p c then CHECK_WEIGHTS c else 0)).sum
        / ((expectedChecks af).map CHECK_WEIGHTS).sum ≤ 1 := (div_le_one hwt).mpr hwsle
    have := @roundDec_mem ℚ _ _ 4 _ 0 1 (by exact_mod_cast hq0) (by exact_mod_cast hq1)
    exact_mod_cast this

theorem crawl_coverage_ratio_mem (pages : List Page) :
    0 ≤ crawl_coverage_ratio pages ∧ crawl_coverage_ratio pages ≤ 1 := by
  unfold crawl_coverage_ratio
  refine ⟨le_min (by norm_num) (div_nonneg (by positivity) (by positivity)), min_le_left _ _⟩

theorem completeness_ratio_raw_mem (pages : List Page) (af : List String) :
    0 ≤ completeness_ratio_raw pages af ∧ completeness_ratio_raw pages af ≤ 1 := by
  unfold completeness_ratio_raw
  split
  · norm_num
  · next hne =>
    have hn : 0 < (pages.length : ℚ) := by
      have : pages.length ≠ 0 := by
        simpa [List.length_eq_zero] using hne
      positivity
    constructor
    · apply div_nonneg _ (le_of_lt hn)
      apply List.sum_nonneg
      intro x hx
      rcases List.mem_map.mp hx with ⟨q, _, rfl⟩
      exact (ccs_ratio_mem q af).1
    · rw [div_le_one hn]
      calc (pages.map (fun p => compute_confidence_score_ratio p af)).sum
          ≤ (pages.map (fun _ => (1 : ℚ))).sum := by
            apply List.sum_le_sum
            intro q _
            exact (ccs_ratio_mem q af).2
        _ = (pages.length : ℚ) := by rw [sum_map_const_q]; ring

theorem countP_three (l : List String) :
    l.countP (fun f => (f == "performance") || (f == "accessibility") || (f == "security"))
      = l.count "performance" + l.count "accessibility" + l.count "security" := by
  induction l with
  | nil => simp
  | cons x t ih =>
    simp only [List.countP_cons, List.count_cons, ih]
    by_cases h1 : x = "performance"
    · subst h1
      simp
      omega
    · by_cases h2 : x = "accessibility"
      · subst h2
        simp
        omega
      · by_cases h3 : x = "security"
        · subst h3
          simp
          omega
        · simp [h1, h2, h3]

theorem missingCount_le (p : Page) (af : List String) :
    missingCount p af
      ≤ (if af = [] then 3
         else (af.filter
           (fun f => (f == "performance") || (f == "accessibility") || (f == "security"))).length) := by
  unfold missingCount
  by_cases haf : af = []
  · simp only [haf]
    norm_num
    split_ifs <;> omega
  · rw [if_pos haf, if_neg haf]
    have hlen : (af.filter
        (fun f => (f == "performance") || (f == "accessibility") || (f == "security"))).length
        = af.count "performance" + af.count "accessibility" + af.count "security" := by
      rw [← List.countP_eq_length_filter, countP_three]
    rw [hlen]
    have b1 : (if "performance" ∈ af ∧ p.performance_score = none then 1 else 0)
        ≤ af.count "performance" := by
      split
      · next hc => exact List.count_pos_iff.mpr hc.1
      · exact Nat.zero_le _
    have b2 : (if "accessibility" ∈ af ∧ p.accessibility_score = none then 1 else 0)
        ≤ af.count "accessibility" := by
      split
      · next hc => exact List.count_pos_iff.mpr hc.1
      · exact Nat.zero_le _
    have b3 : (if "security" ∈ af ∧ p.security_score = none then 1 else 0)
        ≤ af.count "security" := by
      split
      · next hc => exact List.count_pos_iff.mpr hc.1
      · exact Nat.zero_le _
    omega

theorem missingTotal_le (pages : List Page) (af : List String) :
    missingTotal pages af ≤ expectedTotal pages af := by
  unfold missingTotal expectedTotal
  calc (pages.map (fun p => missingCount p af)).sum
      ≤ (pages.map (fun _ =>
          (if af = [] then 3
           else (af.filter (fun f =>
             (f == "performance") || (f == "accessibility") || (f == "security"))).length))).sum := by
        apply List.sum_le_sum
        intro q _
        exact missingCount_le q af
    _ = _ := sum_map_const_nat pages _

theorem missing_ratio_mem (pages : List Page) (af : List String) :
    0 ≤ missing_ratio pages af ∧ missing_ratio pages af ≤ 1 := by
  unfold missing_ratio
  split
  · norm_num
  · next hne =>
    have hexp : 0 < expectedTotal pages af := Nat.pos_of_ne_zero hne
    have hexpq : (0 : ℚ) < (expectedTotal pages af : ℚ) := by exact_mod_cast hexp
    constructor
    · exact div_nonneg (by positivity) (le_of_lt hexpq)
    · rw [div_le_one hexpq]
      exact_mod_cast missingTotal_le pages af

theorem completeness_factor_mem (pages : List Page) (af : List String) :
    0 ≤ completeness_factor pages af ∧ completeness_factor pages af ≤ 1 := by
  unfold completeness_factor
  obtain ⟨hr0, hr1⟩ := completeness_ratio_raw_mem pages af
  obtain ⟨hm0, hm1⟩ := missing_ratio_mem pages af
  have hf0 : (0 : ℚ) ≤ 1 - missing_ratio pages af * (1/2) := by linarith
  have hf1 : 1 - missing_ratio pages af * (1/2) ≤ 1 := by linarith
  constructor
  · exact mul_nonneg hr0 hf0
  · calc completeness_ratio_raw pages af * (1 - missing_ratio pages af * (1/2))
        ≤ 1 * 1 := mul_le_mul hr1 hf1 hf0 (by norm_num)
    _ = 1 := by norm_num

theorem clamp01_mem {α : Type} [LinearOrderedField α] (y : α) (hy : 0 ≤ y) :
    0 ≤ max 0 (1 - y) ∧ max 0 (1 - y) ≤ 1 :=
  ⟨le_max_left _ _, max_le (by norm_num) (by linarith)⟩

theorem link_integrity_mem (pages : List Page) :
    0 ≤ link_integrity pages ∧ link_integrity pages ≤ 1 := by
  unfold link_integrity
  dsimp only
  split
  · apply clamp01_mem
    exact le_min (by norm_num) (by positivity)
  · split <;> norm_num

theorem js_cleanliness_mem (pages : List Page) :
    0 ≤ js_cleanliness pages ∧ js_cleanliness pages ≤ 1 := by
  unfold js_cleanliness
  dsimp only
  apply clamp01_mem
  refine le_min (by norm_num) (div_nonneg (div_nonneg ?_ (Nat.cast_nonneg _)) (by norm_num))
  apply List.sum_nonneg
  intro x hx
  rcases List.mem_map.mp hx with ⟨p, _, rfl⟩
  positivity

theorem redirect_stability_mem (pages : List Page) :
    0 ≤ redirect_stability pages ∧ redirect_stability pages ≤ 1 := by
  unfold redirect_stability
  dsimp only
  apply clamp01_mem
  positivity

theorem error_stability_mem (pages : List Page) :
    0 ≤ error_stability pages ∧ error_stability pages ≤ 1 := by
  unfold error_stability
  dsimp only
  split
  · apply clamp01_mem
    positivity
  · split <;> norm_num

theorem cast_map_sub_sq_sum (xs : List ℚ) (m : ℚ) :
    (((xs.map (fun x => (x - m) ^ 2)).sum : ℚ) : ℝ)
      = ((xs.map Rat.cast : List ℝ).map (fun x => (x - (m : ℝ)) ^ 2)).sum := by
  induction xs with
  | nil => simp
  | cons h t ih =>
    simp only [List.map_cons, List.sum_cons, Rat.cast_add, ih]
    congr 1
    push_cast
    ring

theorem cast_list_sum (xs : List ℚ) :
    ((xs.sum : ℚ) : ℝ) = ((xs.map Rat.cast : List ℝ)).sum := by
  induction xs with
  | nil => simp
  | cons h t ih =>
    simp only [List.map_cons, List.sum_cons, Rat.cast_add, ih]

theorem popVariance_cast (xs : List ℚ) :
    ((popVariance xs : ℚ) : ℝ)
      = ((xs.map Rat.cast : List ℝ).map
          (fun x => (x - (xs.map Rat.cast : List ℝ).sum
            / (((xs.map Rat.cast : List ℝ).length : ℕ) : ℝ)) ^ 2)).sum
        / (((xs.map Rat.cast : List ℝ).length : ℕ) : ℝ) := by
  have hlen : (((xs.length : ℕ) : ℚ) : ℝ) = (((xs.map Rat.cast : List ℝ).length : ℕ) : ℝ) := by
    rw [List.length_map]
    push_cast
    ring
  have hm : ((xs.sum / ((xs.length : ℕ) : ℚ) : ℚ) : ℝ)
      = (xs.map Rat.cast : List ℝ).sum / (((xs.map Rat.cast : List ℝ).length : ℕ) : ℝ) := by
    rw [Rat.cast_div, cast_list_sum, hlen]
  unfold popVariance
  dsimp only
  rw [Rat.cast_div, cast_map_sub_sq_sum, hm, hlen]

/-! ## Claims C4 and C7 -/

/-- C4 (confirmed): `compute_run_confidence` always lies in [0, 100] (in
particular it is a total real-valued function, never null or NaN),
returns exactly 0.0 on the empty page list, and for a non-empty page
list each of the six weighted factors it combines lies in [0, 1] before
weighting. -/
theorem claim_C4 (pages : List Page) (active_filters : List String) :
    (0 ≤ compute_run_confidence pages active_filters
        ∧ compute_run_confidence pages active_filters ≤ 100) ∧
      compute_run_confidence [] active_filters = 0 ∧
      (pages ≠ [] →
        (0 ≤ crawl_coverage_ratio pages ∧ crawl_coverage_ratio pages ≤ 1) ∧
        (0 ≤ completeness_factor pages active_filters
            ∧ completeness_factor pages active_filters ≤ 1) ∧
        (0 ≤ error_stability pages ∧ error_stability pages ≤ 1) ∧
        (0 ≤ link_integrity pages ∧ link_integrity pages ≤ 1) ∧
        (0 ≤ js_cleanliness pages ∧ js_cleanliness pages ≤ 1) ∧
        (0 ≤ redirect_stability pages ∧ redirect_stability pages ≤ 1)) := by
  refine ⟨?_, by simp [compute_run_confidence], ?_⟩
  · unfold compute_run_confidence
    split
    · norm_num
    · set conf : ℝ := ((crawl_coverage_ratio pages * (3/10) +
        completeness_factor pages active_filters * (1/4) +
        link_integrity pages * (3/20) +
        js_cleanliness pages * (1/20) +
        redirect_stability pages * (1/20) : ℚ) : ℝ)
        + error_stability pages * (1/5) with hconf
      have h0 : (0 : ℝ) ≤ max 0 (min 100 (conf * 100)) := le_max_left _ _
      have h100 : max 0 (min 100 (conf * 100)) ≤ 100 :=
        max_le (by norm_num) (min_le_left _ _)
      have := @roundDec_mem ℝ _ _ 1 _ 0 100 (by exact_mod_cast h0) (by exact_mod_cast h100)
      exact_mod_cast this
  · intro _
    exact ⟨crawl_coverage_ratio_mem pages,
      completeness_factor_mem pages active_filters,
      error_stability_mem pages,
      link_integrity_mem pages,
      js_cleanliness_mem pages,
      redirect_stability_mem pages⟩

/-- C4 witness: the factor bounds at a concrete non-empty page list. -/
theorem claim_C4_witness :
    ([pageHealthA] : List Page) ≠ [] ∧
      (0 ≤ crawl_coverage_ratio [pageHealthA] ∧ crawl_coverage_ratio [pageHealthA] ≤ 1) ∧
      (0 ≤ completeness_factor [pageHealthA] [] ∧ completeness_factor [pageHealthA] [] ≤ 1) ∧
      (0 ≤ error_stability [pageHealthA] ∧ error_stability [pageHealthA] ≤ 1) ∧
      (0 ≤ link_integrity [pageHealthA] ∧ link_integrity [pageHealthA] ≤ 1) ∧
      (0 ≤ js_cleanliness [pageHealthA] ∧ js_cleanliness [pageHealthA] ≤ 1) ∧
      (0 ≤ redirect_stability [pageHealthA] ∧ redirect_stability [pageHealthA] ≤ 1) :=
  ⟨by decide, (claim_C4 [pageHealthA] []).2.2 (by decide)⟩

/-- C7 (confirmed): inside the run confidence, the error-stability
factor equals max(0, 1 − popStdDev(health scores)/35) whenever at least
two pages carry a non-null health score, equals 0.70 for exactly one
scored page, and 0.50 for none. -/
theorem claim_C7 (pages : List Page) :
    (2 ≤ (health_scores pages).length →
      error_stability pages
        = max 0 (1 - popStdDev ((health_scores pages).map Rat.cast) / 35)) ∧
      ((health_scores pages).length = 1 → error_stability pages = 7/10) ∧
      ((health_scores pages).length = 0 → error_stability pages = 1/2) := by
  refine ⟨?_, ?_, ?_⟩
  · intro h
    unfold error_stability
    dsimp only
    rw [if_pos h]
    unfold popStdDev
    rw [popVariance_cast]
  · intro h
    unfold error_stability
    dsimp only
    rw [if_neg (by omega), if_pos h]
  · intro h
    unfold error_stability
    dsimp only
    rw [if_neg (by omega), if_neg (by omega)]

/-- C7 witness: two concrete pages with health scores 90 and 80. -/
theorem claim_C7_witness :
    2 ≤ (health_scores [pageHealthA, pageHealthB]).length ∧
      error_stability [pageHealthA, pageHealthB]
        = max 0 (1 - popStdDev ((health_scores [pageHealthA, pageHealthB]).map Rat.cast) / 35) :=
  ⟨by decide, (claim_C7 [pageHealthA, pageHealthB]).1 (by decide)⟩

theorem length_filterMap_id_of_all {α : Type} (l : List (Option α))
    (h : l.all Option.isSome) : (l.filterMap id).length = l.length := by
  induction l with
  | nil => simp
  | cons x t ih =>
    cases x with
    | none => simp at h
    | some v =>
      simp only [List.all_cons, Bool.and_eq_true] at h
      simp [List.filterMap_cons, ih h.2]

/-- C8 (confirmed): on the scenario page the root-cause tag is exactly
"missing_alt+csp" (accessibility token before the security token) and
the failure-pattern id is a non-null 8-character identifier; on any page
the tag is null when no tokens apply and otherwise is the "+"-join of at
most 5 tokens. -/
theorem claim_C8 (p : Page) :
    compute_root_cause_tag pageC8 = some "missing_alt+csp" ∧
      (∃ s, compute_failure_pattern_id pageC8 = some s ∧ s.length = 8) ∧
      (rootCauseTokens p = [] → compute_root_cause_tag p = none) ∧
      (∀ s, compute_root_cause_tag p = some s →
        ∃ ts : List String, ts ≠ [] ∧ ts.length ≤ 5 ∧ s = String.intercalate "+" ts) := by
  refine ⟨by decide, ⟨_, rfl, by decide⟩, ?_, ?_⟩
  · intro h
    simp [compute_root_cause_tag, h]
  · intro s hs
    unfold compute_root_cause_tag at hs
    dsimp only at hs
    split at hs
    · exact absurd hs (by simp)
    · next hne =>
      split at hs
      · next hall =>
        refine ⟨((rootCauseTokens p).take 5).filterMap id, ?_, ?_, ?_⟩
        · have hlen : (((rootCauseTokens p).take 5).filterMap id).length
              = ((rootCauseTokens p).take 5).length :=
            length_filterMap_id_of_all _ hall
          have hpos : 0 < ((rootCauseTokens p).take 5).length := by
            rw [List.length_take]
            have := List.length_pos.mpr hne
            omega
          intro hnil
          have h0 : (((rootCauseTokens p).take 5).filterMap id).length = 0 := by
            rw [hnil]
            rfl
          omega
        · have hlen : (((rootCauseTokens p).take 5).filterMap id).length
              = ((rootCauseTokens p).take 5).length :=
            length_filterMap_id_of_all _ hall
          rw [hlen, List.length_take]
          omega
        · exact (Option.some.injEq _ _ ▸ hs).symm
      · exact absurd hs (by simp)

/-- C8 witness: the general parts evaluated on concrete pages: a page
with no tokens gets a null tag, and the scenario page's tag is the
"+"-join of two tokens. -/
theorem claim_C8_witness :
    (rootCauseTokens pageNoTokens = [] ∧ compute_root_cause_tag pageNoTokens = none) ∧
      (compute_root_cause_tag pageC8 = some "missing_alt+csp" ∧
        ∃ ts : List String, ts ≠ [] ∧ ts.length ≤ 5
          ∧ "missing_alt+csp" = String.intercalate "+" ts) :=
  ⟨⟨by decide, (claim_C8 pageNoTokens).2.2.1 (by decide)⟩,
   ⟨(claim_C8 pageC8).1,
    (claim_C8 pageC8).2.2.2 "missing_alt+csp" (claim_C8 pageC8).1⟩⟩

/-- C10 (confirmed): a form dict whose `fields` key is absent or empty
is returned with a null form health score, zero issue count and an empty
issue list; crawler-captured forms store their field list under `inputs`
and never set `fields`, so every form record the crawl pipeline feeds
through `analyze_all_forms` gets exactly that null result. -/
theorem claim_C10 (f : FormRaw) (forms : List FormRaw) :
    ((f.fields = none ∨ f.fields = some []) →
      analyze_form f
        = { raw := f, form_health_score := none, form_issue_count := 0, form_issues := [] }) ∧
      (∀ idv actionv methodv inputs,
        (crawlerForm idv actionv methodv inputs).fields = none) ∧
      ((∀ g ∈ forms, g.fields = none) →
        ∀ r ∈ analyze_all_forms forms,
          r.form_health_score = none ∧ r.form_issue_count = 0 ∧ r.form_issues = []) := by
  refine ⟨?_, fun _ _ _ _ => rfl, ?_⟩
  · intro h
    rcases h with h | h <;> simp [analyze_form, h]
  · intro h r hr
    rcases List.mem_map.mp hr with ⟨g, hg, rfl⟩
    simp [analyze_form, h g hg]

/-- C10 witness: a concrete crawler-shaped form (email field under
`inputs`) receives the null analysis. -/
theorem claim_C10_witness :
    crawlerFormSample.fields = none ∧
      analyze_form crawlerFormSample
        = { raw := crawlerFormSample, form_health_score := none,
            form_issue_count := 0, form_issues := [] } ∧
      (∀ r ∈ analyze_all_forms [crawlerFormSample],
        r.form_health_score = none ∧ r.form_issue_count = 0 ∧ r.form_issues = []) :=
  ⟨rfl, (claim_C10 crawlerFormSample []).1 (Or.inl rfl),
    (claim_C10 crawlerFormSample [crawlerFormSample]).2.2 (by decide)⟩

/-! ## Crawl-loop lemmas and claims C5, C6 -/

theorem crawlStep_inv {α : Type} (cfg : CrawlConfig) (sd : String → Bool)
    (fetch : String → FetchOutcome α) (s : CrawlState α) (h : crawlInv s) :
    crawlInv (stateOf (crawlStep cfg sd fetch s)) := by
  obtain ⟨h1, h2⟩ := h
  unfold crawlStep
  split
  · exact ⟨h1, h2⟩
  · next u rest hq =>
    split
    · exact ⟨h1, h2⟩
    · split
      · exact ⟨h1, h2⟩
      · split
        · exact ⟨h1, h2⟩
        · split
          · exact ⟨h1, h2⟩
          · next hvis _ =>
            split
            · next r hf =>
              refine ⟨h1, ?_⟩
              intro v hv
              simp only [stateOf, recordFailure] at hv ⊢
              exact List.mem_append_left _ (h2 v hv)
            · next links payload hf =>
              constructor
              · simp only [stateOf, recordSuccess, List.map_append, List.map_cons,
                  List.map_nil]
                rw [List.nodup_append]
                refine ⟨h1, List.nodup_singleton _, ?_⟩
                intro v hv hv1
                simp only [List.mem_singleton] at hv1
                subst hv1
                exact hvis (h2 v hv)
              · intro v hv
                simp only [stateOf, recordSuccess, List.map_append, List.map_cons,
                  List.map_nil, List.mem_append, List.mem_singleton] at hv ⊢
                rcases hv with hv | hv
                · exact Or.inl (h2 v hv)
                · exact Or.inr (by simp [hv])

theorem crawlRun_inv {α : Type} (cfg : CrawlConfig) (sd : String → Bool)
    (fetch : String → FetchOutcome α) (fuel : Nat) (s : CrawlState α) (h : crawlInv s) :
    crawlInv (crawlRun cfg sd fetch fuel s).1 := by
  induction fuel generalizing s with
  | zero => exact h
  | succ n ih =>
    have hstep := crawlStep_inv cfg sd fetch s h
    cases hs : crawlStep cfg sd fetch s with
    | next s₁ =>
      rw [hs] at hstep
      simp only [crawlRun, hs]
      exact ih s₁ hstep
    | stop r s₁ =>
      rw [hs] at hstep
      simp only [crawlRun, hs]
      exact hstep

theorem crawlStep_results_mono {α : Type} (cfg : CrawlConfig) (sd : String → Bool)
    (fetch : String → FetchOutcome α) (s : CrawlState α) :
    s.results <+: (stateOf (crawlStep cfg sd fetch s)).results := by
  unfold crawlStep
  split
  · exact List.prefix_refl _
  · split
    · exact List.prefix_refl _
    · split
      · exact List.prefix_refl _
      · split
        · exact List.prefix_refl _
        · split
          · exact List.prefix_refl _
          · split
            · exact List.prefix_refl _
            · exact List.prefix_append _ _

theorem crawlRun_results_mono {α : Type} (cfg : CrawlConfig) (sd : String → Bool)
    (fetch : String → FetchOutcome α) (fuel : Nat) (s : CrawlState α) :
    s.results <+: (crawlRun cfg sd fetch fuel s).1.results := by
  induction fuel generalizing s with
  | zero => exact List.prefix_refl _
  | succ n ih =>
    have h1 := crawlStep_results_mono cfg sd fetch s
    cases hs : crawlStep cfg sd fetch s with
    | next s₁ =>
      rw [hs] at h1
      simp only [stateOf] at h1
      simp only [crawlRun, hs]
      exact h1.trans (ih s₁)
    | stop r s₁ =>
      rw [hs] at h1
      simp only [stateOf] at h1
      simp only [crawlRun, hs]
      exact h1

/-- C5 (confirmed): on every page-level navigation failure the
consecutive-failure counter increments by exactly one, a warning is
logged exactly when the new count has reached the threshold N (so the
first warning fires at N), and no page record is dropped; the loop
aborts exactly when the counter has reached 2N (with the queue non-empty
and the page cap not reached, which are checked first) and never before,
leaving the state untouched; and across any number of loop iterations
the results list only ever grows, so every record gathered before an
abort remains. -/
theorem claim_C5 {α : Type} (cfg : CrawlConfig) (sd : String → Bool)
    (fetch : String → FetchOutcome α) (s : CrawlState α) (url reason : String) (fuel : Nat) :
    ((recordFailure cfg.threshold s url reason).consecutiveErr = s.consecutiveErr + 1) ∧
      ((recordFailure cfg.threshold s url reason).warnings
        = s.warnings ++ (if cfg.threshold ≤ s.consecutiveErr + 1
            then [s.consecutiveErr + 1] else [])) ∧
      ((recordFailure cfg.threshold s url reason).results = s.results) ∧
      (crawlStep cfg sd fetch s = .stop .aborted s ↔
        s.queue ≠ [] ∧ capReached cfg s = false ∧ 2 * cfg.threshold ≤ s.consecutiveErr) ∧
      (∃ t, (crawlRun cfg sd fetch fuel s).1.results = s.results ++ t) := by
  obtain ⟨t, ht⟩ := crawlRun_results_mono cfg sd fetch fuel s
  refine ⟨rfl, ?_, rfl, ?_, ⟨t, ht.symm⟩⟩
  · simp only [recordFailure]
    split <;> simp
  · constructor
    · intro h
      rcases hq : s.queue with _ | ⟨u, rest⟩
      · unfold crawlStep at h
        simp only [hq] at h
        simp at h
      · unfold crawlStep at h
        simp only [hq] at h
        by_cases hcap : capReached cfg s = true
        · rw [if_pos hcap] at h
          simp at h
        · rw [Bool.not_eq_true] at hcap
          rw [if_neg (by simp [hcap])] at h
          by_cases hab : 2 * cfg.threshold ≤ s.consecutiveErr
          · exact ⟨by simp [hq], hcap, hab⟩
          · rw [if_neg hab] at h
            exfalso
            split at h
            · simp at h
            · split at h
              · simp at h
              · split at h <;> simp at h
    · rintro ⟨hq, hcap, hab⟩
      obtain ⟨u, rest, hq2⟩ := List.exists_cons_of_ne_nil hq
      unfold crawlStep
      simp only [hq2]
      simp [hcap, hab]

/-- C6 (confirmed): starting from the fresh per-job state, after any
number of loop iterations no two page records share a `url` field; and a
dequeued URL already in the visited set is skipped without being
processed (the state only drops it from the queue). -/
theorem claim_C6 (α : Type) (cfg : CrawlConfig) (sd : String → Bool)
    (fetch : String → FetchOutcome α) (fuel : Nat) (start : String) :
    (((crawlRun cfg sd fetch fuel (initState α start)).1.results.map Prod.fst).Nodup) ∧
      (∀ s : CrawlState α, ∀ u rest, s.queue = u :: rest → capReached cfg s = false →
        s.consecutiveErr < 2 * cfg.threshold → u ∈ s.visited →
        crawlStep cfg sd fetch s = .next { s with queue := rest }) := by
  constructor
  · exact (crawlRun_inv cfg sd fetch fuel _ (by simp [crawlInv, initState])).1
  · intro s u rest hq hcap hab hvis
    have hab2 : ¬ (2 * cfg.threshold ≤ s.consecutiveErr) := by omega
    unfold crawlStep
    simp only [hq]
    rw [if_neg (by simp [hcap]), if_neg hab2, if_pos hvis]

/-- C6 witness: the skip behaviour at a concrete state whose dequeued
URL is already visited. -/
theorem claim_C6_witness :
    (witState.queue = "https://ex.org/a" :: ["https://ex.org/b"] ∧
        capReached witCfg witState = false ∧
        witState.consecutiveErr < 2 * witCfg.threshold ∧
        "https://ex.org/a" ∈ witState.visited) ∧
      crawlStep witCfg (fun _ => true) (fun _ => .failure "nav") witState
        = .next { witState with queue := ["https://ex.org/b"] } :=
  ⟨⟨rfl, rfl, by decide, by decide⟩,
    (claim_C6 Unit witCfg (fun _ => true) (fun _ => .failure "nav") 0 "x").2 witState
      "https://ex.org/a" ["https://ex.org/b"] rfl rfl (by decide) (by decide)⟩

/-! ## Claim C9: counterexample -/

/-- C9, counterexample: `normalize_url` is not idempotent and not
trailing-slash invariant. For "a;/" the `rstrip("/")` exposes a trailing
`;` that urlparse then splits off as empty params, which urlunparse
drops: normalize("a;/") = "a;" but normalize("a;") = "a", so
normalize(normalize("a;/")) differs from normalize("a;/"), and the two
URLs "a;" and "a;/" — differing only by a trailing slash — normalize to
different canonical forms. -/
theorem claim_C9_counterexample :
    normalize_url "a;/" = some "a;" ∧
      normalize_url "a;" = some "a" ∧
      ("a;" : String) ≠ "a" := by
  refine ⟨?_, ?_, by decide⟩ <;> decide

/-! ## Helper lemmas about the URL model, towards the amended C9 -/

/-- `splitFirst` returns `none` when the character does not occur. -/
theorem splitFirst_eq_none {c : Char} {l : List Char} (h : c ∉ l) :
    splitFirst c l = none := by
  induction l with
  | nil => rfl
  | cons x xs ih =>
    rw [List.mem_cons, not_or] at h
    show (if x = c then some ([], xs) else
      match splitFirst c xs with
      | none => none
      | some ab => some (x :: ab.1, ab.2)) = none
    rw [if_neg (fun hx => h.1 hx.symm), ih h.2]

/-- `splitFirst` splits at the junction of an append when the separator
does not occur earlier. -/
theorem splitFirst_append (c : Char) (a b : List Char) (h : c ∉ a) :
    splitFirst c (a ++ c :: b) = some (a, b) := by
  induction a with
  | nil => simp [splitFirst]
  | cons x xs ih =>
    rw [List.mem_cons, not_or] at h
    show (if x = c then some ([], xs ++ c :: b) else
      match splitFirst c (xs ++ c :: b) with
      | none => none
      | some ab => some (x :: ab.1, ab.2)) = some (x :: xs, b)
    rw [if_neg (fun hx => h.1 hx.symm), ih h.2]

/-- `takeWhile` over an append stops exactly at the junction when the
left part satisfies the predicate and the right part starts failing it. -/
theorem takeWhile_append_all {p : Char → Bool} {a b : List Char}
    (ha : ∀ x ∈ a, p x = true) (hb : ∀ x, b.head? = some x → p x = false) :
    (a ++ b).takeWhile p = a := by
  induction a with
  | nil =>
    cases b with
    | nil => rfl
    | cons y ys => simp [List.takeWhile_cons, hb y rfl]
  | cons x xs ih =>
    have hx := ha x (List.mem_cons_self x xs)
    have hxs : ∀ y ∈ xs, p y = true := fun y hy => ha y (List.mem_cons_of_mem _ hy)
    simp [List.takeWhile_cons, hx, ih hxs]

/-- `dropWhile` counterpart of `takeWhile_append_all`. -/
theorem dropWhile_append_all {p : Char → Bool} {a b : List Char}
    (ha : ∀ x ∈ a, p x = true) (hb : ∀ x, b.head? = some x → p x = false) :
    (a ++ b).dropWhile p = b := by
  induction a with
  | nil =>
    cases b with
    | nil => rfl
    | cons y ys => simp [List.dropWhile_cons, hb y rfl]
  | cons x xs ih =>
    have hx := ha x (List.mem_cons_self x xs)
    have hxs : ∀ y ∈ xs, p y = true := fun y hy => ha y (List.mem_cons_of_mem _ hy)
    simp [List.dropWhile_cons, hx, ih hxs]

/-- `dropWhile` over an append does not cross a junction whose right
side starts with a failing character. -/
theorem dropWhile_append_stop {p : Char → Bool} {a b : List Char}
    (hb : ∀ x, b.head? = some x → p x = false) :
    (a ++ b).dropWhile p = a.dropWhile p ++ b := by
  induction a with
  | nil =>
    cases b with
    | nil => rfl
    | cons y ys => simp [List.dropWhile_cons, hb y rfl]
  | cons x xs ih =>
    by_cases hx : p x <;> simp [List.dropWhile_cons, hx, ih]

/-- Membership in a `takeWhile` implies membership in the list. -/
theorem mem_of_mem_takeWhile {p : Char → Bool} {x : Char} {l : List Char}
    (h : x ∈ l.takeWhile p) : x ∈ l := by
  induction l with
  | nil => simpa using h
  | cons y ys ih =>
    rw [List.takeWhile_cons] at h
    by_cases hy : p y
    · rw [if_pos hy] at h
      rcases List.mem_cons.mp h with h | h
      · exact h ▸ List.mem_cons_self _ _
      · exact List.mem_cons_of_mem _ (ih h)
    · rw [if_neg hy] at h
      simp at h

/-- The last element of an append with a non-empty right part. -/
theorem getLast?_append_right {a b : List Char} (hb : b ≠ []) :
    (a ++ b).getLast? = b.getLast? := by
  rw [← List.head?_reverse, ← List.head?_reverse, List.reverse_append]
  have hbr : b.reverse ≠ [] := by simpa [List.reverse_eq_nil_iff] using hb
  obtain ⟨y, ys, hy⟩ := List.exists_cons_of_ne_nil hbr
  rw [hy]
  rfl

/-- An element named by `getLast?` is a member. -/
theorem mem_of_getLast? {l : List Char} {x : Char} (h : l.getLast? = some x) :
    x ∈ l := by
  rw [← List.head?_reverse] at h
  have hx : x ∈ l.reverse := by
    cases hr : l.reverse with
    | nil => rw [hr] at h; exact absurd h (by simp)
    | cons y ys =>
      rw [hr] at h
      simp only [List.head?_cons, Option.some.injEq] at h
      subst h
      exact List.mem_cons_self _ _
  simpa using hx

/-- `rstripSlash` distributes over an append whose left part does not
end in a slash. -/
theorem rstripSlash_append {a b : List Char}
    (ha : ∀ x, a.getLast? = some x → x ≠ '/') :
    rstripSlash (a ++ b) = a ++ rstripSlash b := by
  unfold rstripSlash
  rw [List.reverse_append, dropWhile_append_stop, List.reverse_append,
    List.reverse_reverse]
  intro x hx
  rw [List.head?_reverse] at hx
  simpa using ha x hx

/-- A trailing slash is removed by `rstripSlash`. -/
theorem rstripSlash_append_slash (l : List Char) :
    rstripSlash (l ++ ['/']) = rstripSlash l := by
  unfold rstripSlash
  rw [List.reverse_append]
  simp [List.dropWhile_cons]

/-- `dropWhile` is idempotent. -/
theorem dropWhile_idem {p : Char → Bool} (l : List Char) :
    (l.dropWhile p).dropWhile p = l.dropWhile p := by
  induction l with
  | nil => rfl
  | cons x xs ih => by_cases hx : p x <;> simp [List.dropWhile_cons, hx, ih]

/-- `rstripSlash` is idempotent. -/
theorem rstripSlash_idem (l : List Char) :
    rstripSlash (rstripSlash l) = rstripSlash l := by
  unfold rstripSlash
  rw [List.reverse_reverse, dropWhile_idem]

/-- What `dropWhile` keeps is a suffix. -/
theorem dropWhile_exists_front {p : Char → Bool} (l : List Char) :
    ∃ t, t ++ l.dropWhile p = l := by
  induction l with
  | nil => exact ⟨[], rfl⟩
  | cons x xs ih =>
    by_cases hx : p x
    · obtain ⟨t, ht⟩ := ih
      exact ⟨x :: t, by simp [List.dropWhile_cons, hx, ht]⟩
    · exact ⟨[], by simp [List.dropWhile_cons, hx]⟩

/-- `rstripSlash l` is an initial segment of `l`. -/
theorem rstripSlash_leading (l : List Char) : ∃ t, rstripSlash l ++ t = l := by
  obtain ⟨t, ht⟩ := @dropWhile_exists_front (fun c => c = '/') l.reverse
  refine ⟨t.reverse, ?_⟩
  unfold rstripSlash
  rw [← List.reverse_append, ht, List.reverse_reverse]

/-- `rstripSlash` preserves the head of a list it leaves non-empty. -/
theorem rstripSlash_head (l : List Char) (h : rstripSlash l ≠ []) :
    (rstripSlash l).head? = l.head? := by
  obtain ⟨t, ht⟩ := rstripSlash_leading l
  obtain ⟨y, ys, hy⟩ := List.exists_cons_of_ne_nil h
  rw [hy, ← ht, hy]
  rfl

/-- `rstripSlash` preserves an `all` bound. -/
theorem rstripSlash_all {p : Char → Bool} {l : List Char}
    (h : ∀ x ∈ l, p x = true) : ∀ x ∈ rstripSlash l, p x = true := by
  obtain ⟨t, ht⟩ := rstripSlash_leading l
  intro x hx
  exact h x (ht ▸ List.mem_append_left t hx)

/-- The elements of `afterLastSlash l` come from `l`. -/
theorem mem_afterLastSlash {x : Char} {l : List Char}
    (h : x ∈ afterLastSlash l) : x ∈ l := by
  unfold afterLastSlash at h
  rw [List.mem_reverse] at h
  exact List.mem_reverse.mp (mem_of_mem_takeWhile h)

/-- Without a `;` in the path, `paramsSplit` keeps the path whole. -/
theorem paramsSplit_no_semi {path : List Char} (h : ';' ∉ path) :
    paramsSplit path = (path, []) := by
  unfold paramsSplit
  by_cases hs : '/' ∈ path
  · rw [if_pos hs, splitFirst_eq_none (fun hm => h (mem_afterLastSlash hm))]
  · rw [if_neg hs, splitFirst_eq_none h]

/-- An `all` bound excludes membership of a failing element. -/
theorem not_mem_of_all_good {p : Char → Bool} {l : List Char} {c : Char}
    (h : ∀ x ∈ l, p x = true) (hc : p c = false) : c ∉ l := by
  intro hm
  rw [h c hm] at hc
  exact Bool.noConfusion hc

/-- `removeUnsafe` keeps a list without tab, CR, LF. -/
theorem removeUnsafe_eq_self {l : List Char}
    (h : ∀ c ∈ l, isUnsafeUrlByte c = false) : removeUnsafe l = l := by
  unfold removeUnsafe
  apply List.filter_eq_self.mpr
  intro a ha
  simp [h a ha]

/-- `removeUnsafe` distributes over appends. -/
theorem removeUnsafe_append (a b : List Char) :
    removeUnsafe (a ++ b) = removeUnsafe a ++ removeUnsafe b := by
  unfold removeUnsafe
  exact List.filter_append _ _

/-- `lstripC0` keeps a list whose head is not strippable. -/
theorem lstripC0_cons_of_not {c : Char} {l : List Char}
    (h : isC0OrSpace c = false) : lstripC0 (c :: l) = c :: l := by
  simp [lstripC0, List.dropWhile_cons, h]

/-- Elementary facts about every scheme of `uses_netloc`: its characters
are scheme characters, none strippable, none removable, none a colon;
it starts with an ASCII letter when non-empty; it is already lowercase. -/
theorem uses_netloc_facts :
    ∀ s ∈ USES_NETLOC,
      (s.all (fun c => isSchemeChar c ∧ ¬ isC0OrSpace c ∧ ¬ isUnsafeUrlByte c ∧
        c ≠ ':' ∧ c ≠ '/') = true) ∧
      s.head?.all Char.isAlpha = true ∧
      s.map Char.toLower = s := by decide

/-- Unpacking `goodHostChar`. -/
theorem goodHostChar_props {c : Char} (h : goodHostChar c = true) :
    isNetlocEnd c = false ∧ isUnsafeUrlByte c = false ∧ c ≠ '/' ∧
      c ≠ '[' ∧ c ≠ ']' := by
  simp only [goodHostChar, decide_eq_true_eq, not_or] at h
  obtain ⟨hs, hq, hh, hl, hr, hu⟩ := h
  refine ⟨by simp [isNetlocEnd, hs, hq, hh], by simpa using hu, hs, hl, hr⟩

/-- Unpacking `goodPathChar`. -/
theorem goodPathChar_props {c : Char} (h : goodPathChar c = true) :
    c ≠ ';' ∧ c ≠ '?' ∧ c ≠ '#' ∧ isUnsafeUrlByte c = false := by
  simp only [goodPathChar, decide_eq_true_eq, not_or] at h
  obtain ⟨hs, hq, hh, hu⟩ := h
  exact ⟨hs, hq, hh, by simpa using hu⟩

/-- `urlsplit` on a well-formed absolute URL, optionally followed by a
`#`-fragment tail: scheme, host and path are recovered exactly and the
query is empty. -/
theorem urlsplit_absUrl (sch host path extra : List Char)
    (h1 : sch ≠ []) (h2 : sch ∈ USES_NETLOC) (h3 : host ≠ [])
    (h4 : host.all goodHostChar = true)
    (h5 : path = [] ∨ path.head? = some '/')
    (h6 : path.all goodPathChar = true)
    (hx : extra = [] ∨ ∃ f, extra = '#' :: f) :
    ∃ frag, urlsplitModel (absUrl sch host path ++ extra) =
      some { scheme := sch, netloc := host, path := path, query := [],
             fragment := frag } := by
  obtain ⟨hallQ, hheadQ, hlower⟩ := uses_netloc_facts sch h2
  rw [List.all_eq_true] at hallQ h4 h6
  obtain ⟨c0, cs, hsch⟩ := List.exists_cons_of_ne_nil h1
  have hschF : ∀ c ∈ sch, isSchemeChar c = true ∧ isC0OrSpace c = false ∧
      isUnsafeUrlByte c = false ∧ c ≠ ':' ∧ c ≠ '/' := by
    intro c hc
    have := hallQ c hc
    simp only [decide_eq_true_eq] at this
    obtain ⟨ha, hb, hc', hd, he⟩ := this
    exact ⟨ha, by simpa using hb, by simpa using hc', hd, he⟩
  -- the cleaned input
  have hE : removeUnsafe extra = [] ∨ ∃ f, removeUnsafe extra = '#' :: f := by
    rcases hx with rfl | ⟨f, rfl⟩
    · exact Or.inl rfl
    · refine Or.inr ⟨removeUnsafe f, ?_⟩
      unfold removeUnsafe
      rw [List.filter_cons]
      simp [isUnsafeUrlByte]
  have hclean : cleanUrl (absUrl sch host path ++ extra) =
      sch ++ ':' :: '/' :: '/' :: (host ++ (path ++ removeUnsafe extra)) := by
    unfold cleanUrl
    have hA : absUrl sch host path ++ extra =
        c0 :: (cs ++ ([':', '/', '/'] ++ (host ++ (path ++ extra)))) := by
      simp [absUrl, hsch]
    rw [hA]
    rw [lstripC0_cons_of_not
      (hschF c0 (by rw [hsch]; exact List.mem_cons_self _ _)).2.1]
    have hrc0 : removeUnsafe (c0 :: (cs ++ ([':', '/', '/'] ++ (host ++ (path ++ extra))))) =
        removeUnsafe (c0 :: cs) ++ (removeUnsafe [':', '/', '/'] ++
          (removeUnsafe host ++ (removeUnsafe path ++ removeUnsafe extra))) := by
      rw [show (c0 :: (cs ++ ([':', '/', '/'] ++ (host ++ (path ++ extra))))) =
        (c0 :: cs) ++ ([':', '/', '/'] ++ (host ++ (path ++ extra))) from rfl]
      rw [removeUnsafe_append, removeUnsafe_append, removeUnsafe_append,
        removeUnsafe_append]
    rw [hrc0, ← hsch]
    rw [removeUnsafe_eq_self (fun c hc => (hschF c hc).2.2.1),
      removeUnsafe_eq_self (fun c hc => (goodHostChar_props (h4 c hc)).2.1),
      removeUnsafe_eq_self (fun c hc => (goodPathChar_props (h6 c hc)).2.2.2)]
    rw [show removeUnsafe [':', '/', '/'] = [':', '/', '/'] from by decide]
    simp [hsch]
  have hss : schemeSplit (sch ++ ':' :: '/' :: '/' :: (host ++ (path ++ removeUnsafe extra))) =
      some (sch, '/' :: '/' :: (host ++ (path ++ removeUnsafe extra))) := by
    unfold schemeSplit
    rw [splitFirst_append ':' sch _ (fun hm => (hschF ':' hm).2.2.2.1 rfl)]
    rw [hsch] at hheadQ ⊢
    simp only [List.head?_cons, Option.all_some] at hheadQ
    have hcs : cs.all isSchemeChar = true :=
      List.all_eq_true.mpr fun c hc =>
        (hschF c (by rw [hsch]; exact List.mem_cons_of_mem _ hc)).1
    dsimp only
    have hcond : c0.isAlpha = true ∧ cs.all isSchemeChar = true := ⟨hheadQ, hcs⟩
    rw [if_pos hcond, ← hsch, hlower, hsch]
  have hbrL : '[' ∉ host :=
    not_mem_of_all_good h4 (by decide)
  have hbrR : ']' ∉ host :=
    not_mem_of_all_good h4 (by decide)
  have hhostNE : ∀ x ∈ host, (fun c => (¬ isNetlocEnd c : Bool)) x = true := by
    intro x hx'
    simp [(goodHostChar_props (h4 x hx')).1]
  have hPEhead : ∀ y, (path ++ removeUnsafe extra).head? = some y →
      (fun c => (¬ isNetlocEnd c : Bool)) y = false := by
    intro y hy
    rcases h5 with rfl | h5
    · rw [List.nil_append] at hy
      rcases hE with hE | ⟨f, hE⟩
      · rw [hE] at hy
        exact absurd hy (by simp)
      · rw [hE] at hy
        simp only [List.head?_cons, Option.some.injEq] at hy
        subst hy
        decide
    · have hpne : path ≠ [] := by
        intro hnil
        rw [hnil] at h5
        exact Option.noConfusion h5
      obtain ⟨p0, pt, hp⟩ := List.exists_cons_of_ne_nil hpne
      rw [hp] at h5 hy
      simp only [List.head?_cons, Option.some.injEq] at h5
      subst h5
      simp only [List.cons_append, List.head?_cons, Option.some.injEq] at hy
      subst hy
      decide
  have hfrag : ∃ frag,
      (match splitFirst '#' (path ++ removeUnsafe extra) with
        | none => (path ++ removeUnsafe extra, ([] : List Char))
        | some ab => ab) = (path, frag) := by
    have hnp : '#' ∉ path := not_mem_of_all_good h6 (by decide)
    rcases hE with hE | ⟨f, hE⟩
    · rw [hE, List.append_nil, splitFirst_eq_none hnp]
      exact ⟨[], rfl⟩
    · rw [hE, splitFirst_append '#' path f hnp]
      exact ⟨f, rfl⟩
  obtain ⟨frag, hfr⟩ := hfrag
  have hq : splitFirst '?' path = none :=
    splitFirst_eq_none (not_mem_of_all_good h6 (by decide))
  refine ⟨frag, ?_⟩
  unfold urlsplitModel
  rw [hclean]
  dsimp only
  rw [hss]
  dsimp only
  rw [show ('/' :: '/' :: (host ++ (path ++ removeUnsafe extra))).take 2 = ['/', '/'] from rfl]
  rw [if_pos rfl]
  rw [show ('/' :: '/' :: (host ++ (path ++ removeUnsafe extra))).drop 2 =
    host ++ (path ++ removeUnsafe extra) from rfl]
  rw [takeWhile_append_all hhostNE hPEhead, dropWhile_append_all hhostNE hPEhead]
  rw [if_neg (by rintro (hm | hm); exacts [hbrL hm, hbrR hm])]
  rw [hfr]
  dsimp only
  rw [hq]

/-- `urlparse` on a well-formed absolute URL: params are empty whether
or not the scheme is in `uses_params`, because the path has no `;`. -/
theorem urlparse_absUrl (sch host path extra : List Char)
    (h1 : sch ≠ []) (h2 : sch ∈ USES_NETLOC) (h3 : host ≠ [])
    (h4 : host.all goodHostChar = true)
    (h5 : path = [] ∨ path.head? = some '/')
    (h6 : path.all goodPathChar = true)
    (hx : extra = [] ∨ ∃ f, extra = '#' :: f) :
    ∃ frag, urlparseModel (absUrl sch host path ++ extra) =
      some { scheme := sch, netloc := host, path := path, params := [],
             query := [], fragment := frag } := by
  obtain ⟨frag, hsp⟩ := urlsplit_absUrl sch host path extra h1 h2 h3 h4 h5 h6 hx
  refine ⟨frag, ?_⟩
  unfold urlparseModel
  rw [hsp]
  dsimp only
  have hsemi : ';' ∉ path := not_mem_of_all_good
    (List.all_eq_true.mp h6) (by decide)
  by_cases hg : sch ∈ USES_PARAMS
  · rw [if_pos hg, paramsSplit_no_semi hsemi]
  · rw [if_neg hg]

/-- `normalize_url` on a well-formed absolute URL, optionally followed
by a `#`-fragment tail: the result is the same URL with the fragment
dropped and trailing slashes of the path removed. -/
theorem normalize_absUrl (sch host path extra : List Char)
    (h1 : sch ≠ []) (h2 : sch ∈ USES_NETLOC) (h3 : host ≠ [])
    (h4 : host.all goodHostChar = true)
    (h5 : path = [] ∨ path.head? = some '/')
    (h6 : path.all goodPathChar = true)
    (hx : extra = [] ∨ ∃ f, extra = '#' :: f) :
    normalize_url_model (absUrl sch host path ++ extra) =
      some (absUrl sch host (rstripSlash path)) := by
  obtain ⟨frag, hp⟩ := urlparse_absUrl sch host path extra h1 h2 h3 h4 h5 h6 hx
  unfold normalize_url_model
  rw [hp]
  dsimp only
  congr 1
  have hup : urlunparseModel
      { scheme := sch, netloc := host, path := path, params := [],
        query := [], fragment := [] } =
      sch ++ ':' :: '/' :: '/' :: (host ++ path) := by
    unfold urlunparseModel urlunsplitModel
    dsimp only
    have hins : ¬ (path ≠ [] ∧ path.take 1 ≠ ['/']) := by
      rcases h5 with rfl | h5
      · exact fun hc => hc.1 rfl
      · intro hc
        obtain ⟨p0, pt, hp'⟩ := List.exists_cons_of_ne_nil hc.1
        rw [hp'] at h5 hc
        simp only [List.head?_cons, Option.some.injEq] at h5
        subst h5
        exact hc.2 rfl
    simp [h1, h3, hins]
  rw [hup]
  have hre : sch ++ ':' :: '/' :: '/' :: (host ++ path) =
      (sch ++ ([':', '/', '/'] ++ host)) ++ path := by simp
  rw [hre]
  rw [rstripSlash_append]
  · rw [absUrl]
    simp
  · intro x hx'
    rw [getLast?_append_right (by simp [h3]),
      getLast?_append_right h3] at hx'
    exact (goodHostChar_props
      ((List.all_eq_true.mp h4) x (mem_of_getLast? hx'))).2.2.1

/-- `normalize_url` on a packed character list is the list-level model. -/
theorem normalize_url_mk (l : List Char) :
    normalize_url (String.mk l) =
      (normalize_url_model l).map (fun m => String.mk m) := rfl

/-- C9, amended: `normalize_url` is not idempotent on arbitrary strings
(see `claim_C9_counterexample`), but on well-formed absolute URLs
`scheme://host`+`path` — scheme in urllib's `uses_netloc`, non-empty
host free of `/`, `?`, `#`, brackets and tab/CR/LF, path empty or
starting with `/` and free of `;`, `?`, `#`, tab/CR/LF — it returns the
URL with the trailing slashes of the path removed, it is idempotent
there, and appending a trailing slash or a `#`-fragment to such a URL
does not change the result. -/
theorem claim_C9 (sch host path : List Char) (f : String)
    (h1 : sch ≠ []) (h2 : sch ∈ USES_NETLOC) (h3 : host ≠ [])
    (h4 : host.all goodHostChar = true)
    (h5 : path = [] ∨ path.head? = some '/')
    (h6 : path.all goodPathChar = true) :
    (∀ s, normalize_url (String.mk (absUrl sch host path)) = some s →
        normalize_url s = some s) ∧
      normalize_url (String.mk (absUrl sch host path) ++ "/") =
        normalize_url (String.mk (absUrl sch host path)) ∧
      normalize_url (String.mk (absUrl sch host path) ++ "#" ++ f) =
        normalize_url (String.mk (absUrl sch host path)) := by
  have hbase : normalize_url_model (absUrl sch host path) =
      some (absUrl sch host (rstripSlash path)) := by
    have h := normalize_absUrl sch host path [] h1 h2 h3 h4 h5 h6 (Or.inl rfl)
    rwa [List.append_nil] at h
  have hallP : ∀ x ∈ path, goodPathChar x = true := List.all_eq_true.mp h6
  have h5' : rstripSlash path = [] ∨ (rstripSlash path).head? = some '/' := by
    by_cases hrp : rstripSlash path = []
    · exact Or.inl hrp
    · right
      rw [rstripSlash_head path hrp]
      rcases h5 with h5 | h5
      · subst h5
        exact absurd rfl hrp
      · exact h5
  have h6' : (rstripSlash path).all goodPathChar = true :=
    List.all_eq_true.mpr (rstripSlash_all hallP)
  have hidem : normalize_url_model (absUrl sch host (rstripSlash path)) =
      some (absUrl sch host (rstripSlash path)) := by
    have h := normalize_absUrl sch host (rstripSlash path) [] h1 h2 h3 h4 h5'
      h6' (Or.inl rfl)
    rwa [List.append_nil, rstripSlash_idem] at h
  refine ⟨?_, ?_, ?_⟩
  · intro s hs
    rw [normalize_url_mk, hbase] at hs
    have hs' : s = String.mk (absUrl sch host (rstripSlash path)) := by
      simpa using hs.symm
    subst hs'
    rw [normalize_url_mk, hidem]
    rfl
  · have hmk : String.mk (absUrl sch host path) ++ "/" =
        String.mk (absUrl sch host path ++ ['/']) := rfl
    have hre : absUrl sch host path ++ ['/'] =
        absUrl sch host (path ++ ['/']) := by
      unfold absUrl
      simp
    have hpne5 : path ++ ['/'] = [] ∨ (path ++ ['/']).head? = some '/' := by
      rcases h5 with rfl | h5
      · exact Or.inr rfl
      · right
        have hpne : path ≠ [] := by
          intro hnil
          rw [hnil] at h5
          exact Option.noConfusion h5
        obtain ⟨p0, pt, hp'⟩ := List.exists_cons_of_ne_nil hpne
        rw [hp'] at h5 ⊢
        simp only [List.head?_cons, Option.some.injEq] at h5
        subst h5
        rfl
    have h6s : (path ++ ['/']).all goodPathChar = true := by
      rw [List.all_append, h6,
        show (['/'] : List Char).all goodPathChar = true from by decide]
      rfl
    have h := normalize_absUrl sch host (path ++ ['/']) [] h1 h2 h3 h4 hpne5
      h6s (Or.inl rfl)
    rw [List.append_nil] at h
    rw [hmk, hre, normalize_url_mk, normalize_url_mk, hbase, h,
      rstripSlash_append_slash]
  · have hmk : String.mk (absUrl sch host path) ++ "#" ++ f =
        String.mk (absUrl sch host path ++ '#' :: f.toList) := by
      have : (String.mk (absUrl sch host path) ++ "#" ++ f).data =
          absUrl sch host path ++ '#' :: f.toList := by
        show (absUrl sch host path ++ "#".data) ++ f.data =
          absUrl sch host path ++ '#' :: f.toList
        simp [String.toList]
      exact congrArg String.mk this
    have h := normalize_absUrl sch host path ('#' :: f.toList) h1 h2 h3 h4 h5
      h6 (Or.inr ⟨f.toList, rfl⟩)
    rw [hmk, normalize_url_mk, normalize_url_mk, hbase, h]

/-- C9 witness: the amended theorem applied to `http://ex.com/a/`,
whose normal form is `http://ex.com/a`. -/
theorem claim_C9_witness :
    (∀ s, normalize_url (String.mk (absUrl "http".toList "ex.com".toList
        "/a/".toList)) = some s → normalize_url s = some s) ∧
      normalize_url (String.mk (absUrl "http".toList "ex.com".toList
        "/a/".toList) ++ "/") =
        normalize_url (String.mk (absUrl "http".toList "ex.com".toList
          "/a/".toList)) ∧
      normalize_url (String.mk (absUrl "http".toList "ex.com".toList
        "/a/".toList) ++ "#" ++ "sec") =
        normalize_url (String.mk (absUrl "http".toList "ex.com".toList
          "/a/".toList)) :=
  claim_C9 "http".toList "ex.com".toList "/a/".toList "sec" (by decide)
    (by decide) (by decide) (by decide) (by decide) (by decide)

end GuardianAI